import Mathlib

/-! The event dispatcher of go-astilectron (`dispatcher.go`).

A shallow embedding of `Dispatcher` and its methods, followed by the properties
proved about them.

Conventions of the embedding

* A Go map `map[K]V` is a function `K → Option V`: `m k = some v` when key `k` is
  present with value `v`. Every map of the registry is made by `make` or by a
  literal, so the model has no nil map.
* A method with a pointer receiver takes the dispatcher and returns its results
  paired with the dispatcher it leaves behind.
* The mutex `d.m` is not part of the dispatcher state: each of `addListener`,
  `delListener` and `listeners` locks on entry and unlocks on exit, and the
  embedding is sequential. The section on the mutex follows its state along the
  goroutine of the loop.
* `d.id` is a Go `int`, taken at 64 bits: an integer between `minInt` and
  `maxInt`, and `d.id++` wraps around from `maxInt` to `minInt`.
* A channel value is nil (`none`) or the address of a channel object; the heap
  records which channel objects have been closed.
* A `Listener` is a Go closure. The embedding keeps listeners abstract (a type
  `L`) and takes their behaviour as a parameter: what a call does to the
  closure's own environment `W`, which registry methods it calls, and whether it
  returns (and what) or panics.
-/

namespace Astilectron

/-! ## Data model -/

/-- Modelled from the spec: the type `Event` is declared in another file of the
package; the dispatcher reads only its fields `TargetID` and `Name`. -/
structure Event where
  TargetID : String
  Name : String
  deriving DecidableEq, Repr

/-- Go map `map[K]V` (never nil): the entry stored under each key, if any. -/
abbrev GoMap (K V : Type) : Type := K → Option V

namespace GoMap

variable {K V : Type}

/-- The map `make(map[K]V)`, also the literal `map[K]V{}`. -/
def empty : GoMap K V := fun _ => none

/-- The assignment `m[k] = v`. -/
def set [DecidableEq K] (m : GoMap K V) (k : K) (v : V) : GoMap K V :=
  fun j => if j = k then some v else m j

/-- The call `delete(m, k)`. -/
def delete [DecidableEq K] (m : GoMap K V) (k : K) : GoMap K V :=
  fun j => if j = k then none else m j

end GoMap

/-- The heap of channel objects: the object at address `a` is closed when the
`a`-th flag is true. -/
abbrev Heap : Type := List Bool

/-- Run-time panics of the channel operations. -/
inductive Panic where
  | closeOfNilChannel
  | closeOfClosedChannel
  | invalidAddress
  deriving DecidableEq, Repr

/-- The built-in `make(chan T)`: a new open channel object, at the next address. -/
def makeChan (h : Heap) : Nat × Heap := (h.length, h ++ [false])

/-- The built-in `close(ch)`: panics on a nil channel and on a closed one. An
address outside the heap does not occur in a Go program. -/
def closeChan (h : Heap) : Option Nat → Except Panic Heap
  | none => .error .closeOfNilChannel
  | some a =>
    match h.get? a with
    | some false => .ok (h.set a true)
    | some true => .error .closeOfClosedChannel
    | none => .error .invalidAddress

/-- The largest value of the Go type `int` (64 bits). -/
def maxInt : Int := 9223372036854775807

/-- The smallest value of the Go type `int` (64 bits). -/
def minInt : Int := -9223372036854775808

/-- The value of type `int` that the integer `x` becomes: `x` modulo 2^64, taken
between `minInt` and `maxInt` (two's complement). -/
def wrapInt (x : Int) : Int :=
  (x + 9223372036854775808) % 18446744073709551616 - 9223372036854775808

/-- The struct `Dispatcher`, without its mutex `m`. Field `id` is a Go `int`: it
starts at 0 and its only assignment, `d.id++`, goes through `wrapInt`. Field `l`
is indexed by target ID, then by event name, then by listener id. -/
structure Dispatcher (L : Type) where
  c : Option Nat
  cq : Option Nat
  id : Int
  l : GoMap String (GoMap String (GoMap Int L))

/-! ## Methods -/

section Methods

variable {L : Type}

/-- The function `newDispatcher`: two new channels, counter 0, empty registry. -/
def newDispatcher (L : Type) (h : Heap) : Dispatcher L × Heap :=
  let c := makeChan h
  let cq := makeChan c.2
  ({ c := some c.1, cq := some cq.1, id := 0, l := GoMap.empty }, cq.2)

/-- The index expression `d.l[targetID]` read as a value: the zero value of a map
type reads as a map without entries. -/
def Dispatcher.atTarget (d : Dispatcher L) (targetID : String) :
    GoMap String (GoMap Int L) :=
  (d.l targetID).getD GoMap.empty

/-- The index expression `d.l[targetID][eventName]` read as a value. -/
def Dispatcher.atEvent (d : Dispatcher L) (targetID eventName : String) : GoMap Int L :=
  (d.atTarget targetID eventName).getD GoMap.empty

/-- The method `addListener`. It has no result. -/
def addListener (d : Dispatcher L) (targetID eventName : String) (l : L) :
    Unit × Dispatcher L :=
  -- if _, ok := d.l[targetID]; !ok { d.l[targetID] = make(...) }
  let d1 : Dispatcher L :=
    match d.l targetID with
    | some _ => d
    | none => { d with l := d.l.set targetID GoMap.empty }
  -- if _, ok := d.l[targetID][eventName]; !ok { d.l[targetID][eventName] = make(...) }
  let d2 : Dispatcher L :=
    match d1.atTarget targetID eventName with
    | some _ => d1
    | none =>
      { d1 with l := d1.l.set targetID ((d1.atTarget targetID).set eventName GoMap.empty) }
  -- d.id++
  let d3 : Dispatcher L := { d2 with id := wrapInt (d2.id + 1) }
  -- d.l[targetID][eventName][d.id] = l
  ((), { d3 with
    l := d3.l.set targetID
      ((d3.atTarget targetID).set eventName ((d3.atEvent targetID eventName).set d3.id l)) })

/-- The method `delListener`. It has no result. -/
def delListener (d : Dispatcher L) (targetID eventName : String) (id : Int) :
    Unit × Dispatcher L :=
  match d.l targetID with
  | none => ((), d)
  | some evs =>
    match evs eventName with
    | none => ((), d)
    | some m =>
      -- delete(d.l[targetID][eventName], id)
      ((), { d with l := d.l.set targetID (evs.set eventName (m.delete id)) })

/-- The method `listeners`. On a hit the map it returns is the bucket stored in
the registry itself, not a copy. -/
def listeners (d : Dispatcher L) (targetID eventName : String) :
    GoMap Int L × Dispatcher L :=
  match d.l targetID with
  | none => (GoMap.empty, d)
  | some evs =>
    match evs eventName with
    | none => (GoMap.empty, d)
    | some m => (m, d)

/-- The method `close`, on a dispatcher and the heap of its channels. -/
def close (s : Dispatcher L × Heap) : Except Panic (Dispatcher L × Heap) :=
  match s.1.cq with
  | none => .ok s
  | some a =>
    match closeChan s.2 (some a) with
    | .error p => .error p
    | .ok h => .ok ({ s.1 with cq := none }, h)

end Methods

/-! ## Sequences of registry calls -/

section Calls

variable {L : Type}

/-- A call of one of the two methods that change the registry. -/
inductive Op (L : Type) where
  | add (targetID eventName : String) (l : L)
  | del (targetID eventName : String) (id : Int)

/-- The dispatcher after one registry call. -/
def applyOp (d : Dispatcher L) : Op L → Dispatcher L
  | .add t n l => (addListener d t n l).2
  | .del t n i => (delListener d t n i).2

/-- The dispatcher after a sequence of registry calls, first call first. -/
def applyOps (d : Dispatcher L) : List (Op L) → Dispatcher L
  | [] => d
  | op :: ops => applyOps (applyOp d op) ops

/-- The ids assigned by the `addListener` calls of a sequence of registry calls,
in the order of the calls: each one is the value of `d.id` under which the call
stored its listener. -/
def assignedIds (d : Dispatcher L) : List (Op L) → List Int
  | [] => []
  | .add t n l :: ops =>
    (addListener d t n l).2.id :: assignedIds (addListener d t n l).2 ops
  | .del t n i :: ops => assignedIds (delListener d t n i).2 ops

/-- The number of `addListener` calls in a sequence of registry calls. -/
def countAdds : List (Op L) → Nat
  | [] => 0
  | .add _ _ _ :: ops => countAdds ops + 1
  | .del _ _ _ :: ops => countAdds ops

end Calls

/-! ## The dispatch loop: delivery of one event -/

section Delivery

variable {W L : Type}

/-- What one call `l(e)` of a listener does: the closure's environment after the
call, the registry methods it called on the dispatcher (in order), and its
result, `none` when the call panicked. -/
structure CallResult (W L : Type) where
  w : W
  ops : List (Op L)
  ret : Option Bool

/-- Behaviour of the listener closures: the outcome of calling listener `l` with
event `e`, given the closure environment and the dispatcher at the time of the
call. -/
abbrev Callbacks (W L : Type) : Type := L → Event → W → Dispatcher L → CallResult W L

/-- One invocation made by the loop: the id and listener produced by `range`, the
event passed, and the result (`none` for a panic). -/
structure Invocation (L : Type) where
  id : Int
  l : L
  e : Event
  ret : Option Bool

/-- Outcome of delivering one event: environment and dispatcher afterwards, the
invocations made (first one first), and whether a callback panicked. There is no
`recover` in `start`: a panic ends the delivery and unwinds the loop. -/
structure Delivery (W L : Type) where
  w : W
  d : Dispatcher L
  trace : List (Invocation L)
  panicked : Bool

/-- The statement `for id, l := range m { if l(e) { d.delListener(..., id) } }`
of `start`, where `m` is the map `listeners` returned for the event.

Go visits the keys of a map in an order it does not specify; `order` is the
order taken by the run time. The map ranged over is the registry's own bucket
when there is one (buckets are never removed, so it stays `d.l[TargetID][Name]`
as callbacks run) and a new empty map otherwise, so in both cases its content
when key `id` is reached is `listeners d TargetID Name` for the dispatcher `d`
of that moment: an entry removed before it is reached is not produced, and an
entry is produced with the value stored at that moment. -/
def deliverLoop (call : Callbacks W L) (e : Event) :
    List Int → W → Dispatcher L → Delivery W L
  | [], w, d => { w := w, d := d, trace := [], panicked := false }
  | id :: rest, w, d =>
    match (listeners d e.TargetID e.Name).1 id with
    | none => deliverLoop call e rest w d
    | some l =>
      -- l(e)
      let r := call l e w d
      let d1 := applyOps d r.ops
      match r.ret with
      | none =>
        { w := r.w, d := d1, trace := [{ id := id, l := l, e := e, ret := none }],
          panicked := true }
      | some b =>
        -- if l(e) { d.delListener(e.TargetID, e.Name, id) }
        let d2 := if b then (delListener d1 e.TargetID e.Name id).2 else d1
        let k := deliverLoop call e rest r.w d2
        { k with trace := { id := id, l := l, e := e, ret := some b } :: k.trace }

/-- The body of the branch `case e := <-d.c` of `start`: look the listeners of the
event up, then range over the map returned. -/
def deliver (call : Callbacks W L) (e : Event) (order : List Int) (w : W)
    (d : Dispatcher L) : Delivery W L :=
  deliverLoop call e order w (listeners d e.TargetID e.Name).2

/-- The registry calls made while the range statement of `start` runs, in order:
those of the callbacks and the `delListener` calls of the loop itself. -/
def deliverLoopOps (call : Callbacks W L) (e : Event) :
    List Int → W → Dispatcher L → List (Op L)
  | [], _, _ => []
  | id :: rest, w, d =>
    match (listeners d e.TargetID e.Name).1 id with
    | none => deliverLoopOps call e rest w d
    | some l =>
      let r := call l e w d
      let d1 := applyOps d r.ops
      match r.ret with
      | none => r.ops
      | some b =>
        let d2 := if b then (delListener d1 e.TargetID e.Name id).2 else d1
        r.ops ++ ((if b then [Op.del e.TargetID e.Name id] else []) ++
          deliverLoopOps call e rest r.w d2)

/-- The registry calls made during the delivery of one event. -/
def deliverOps (call : Callbacks W L) (e : Event) (order : List Int) (w : W)
    (d : Dispatcher L) : List (Op L) :=
  deliverLoopOps call e order w (listeners d e.TargetID e.Name).2

/-- What Go guarantees of the order in which `range` visits a map with content
`m` at the start: no key is visited twice, and every key of `m` is visited
unless its entry is removed first. -/
def RangeOrder (order : List Int) (m : GoMap Int L) : Prop :=
  order.Nodup ∧ ∀ id, (m id).isSome → id ∈ order

/-- No callback calls a method that changes the registry. -/
def NoMutation (call : Callbacks W L) : Prop :=
  ∀ l e w d, (call l e w d).ops = []

/-- Every callback returns (none panics). -/
def Returns (call : Callbacks W L) : Prop :=
  ∀ l e w d, ((call l e w d).ret).isSome

/-- What a delivery `k` of event `e` along `order`, started on dispatcher `d`,
satisfies when no callback changes the registry and none panics. -/
structure QuietOutcome (e : Event) (order : List Int) (d : Dispatcher L)
    (k : Delivery W L) : Prop where
  panicked : k.panicked = false
  ids : k.trace.map (fun c => c.id) =
    order.filter (fun i => (d.atEvent e.TargetID e.Name i).isSome)
  entries : ∀ c ∈ k.trace,
    c.e = e ∧ d.atEvent e.TargetID e.Name c.id = some c.l ∧ c.ret.isSome
  counter : k.d.id = d.id
  frame : ∀ T N, ¬ (T = e.TargetID ∧ N = e.Name) → k.d.atEvent T N = d.atEvent T N
  removed : ∀ c ∈ k.trace, c.ret = some true → k.d.atEvent e.TargetID e.Name c.id = none
  kept : ∀ j, (∀ c ∈ k.trace, c.id = j → c.ret ≠ some true) →
    k.d.atEvent e.TargetID e.Name j = d.atEvent e.TargetID e.Name j

end Delivery

/-! ## The scenario of the specification

Listener `L1` returns false and listener `L2` returns true; both are registered,
in this order, under ("win1", "ready") on a new dispatcher. Listeners are named by
numbers: `L1` is 10 and `L2` is 20. -/

section Scenario

/-- The callbacks of the scenario: `L2` (20) asks for its removal, `L1` (10) does
not; neither touches the registry. -/
def scenarioCall : Callbacks Unit Nat :=
  fun l _ w _ => { w := w, ops := [], ret := some (decide (l = 20)) }

/-- The dispatcher of the scenario: `L1` under id 1 and `L2` under id 2. -/
def scenarioDispatcher : Dispatcher Nat :=
  (addListener (addListener (newDispatcher Nat []).1 "win1" "ready" 10).2 "win1" "ready" 20).2

/-- The event of the scenario. -/
def scenarioEvent : Event := { TargetID := "win1", Name := "ready" }

end Scenario

/-! ## Reachable dispatchers -/

section Reach

/-- The dispatchers a program can get, with the number of `addListener` calls made
on the way (those of callbacks included): the one `newDispatcher` makes, and what
`addListener`, `delListener`, the delivery of an event (with any callbacks, in any
iteration order) and `close` make of such a dispatcher. -/
inductive Reachable {L : Type} : Nat → Dispatcher L → Prop where
  | init (h : Heap) : Reachable 0 (newDispatcher L h).1
  | add {n : Nat} {d : Dispatcher L} (T E : String) (l : L) :
      Reachable n d → Reachable (n + 1) (addListener d T E l).2
  | del {n : Nat} {d : Dispatcher L} (T E : String) (i : Int) :
      Reachable n d → Reachable n (delListener d T E i).2
  | deliver {n : Nat} {d : Dispatcher L} {W : Type} (call : Callbacks W L) (e : Event)
      (order : List Int) (w : W) :
      Reachable n d →
      Reachable (n + countAdds (deliverOps call e order w d)) (deliver call e order w d).d
  | close {n : Nat} {d d' : Dispatcher L} {h h' : Heap} :
      Reachable n d → close (d, h) = .ok (d', h') → Reachable n d'

/-- The invariant of the registry: the counter is not negative, every id stored
lies between 1 and the counter, and no id is stored under two pairs. -/
def IdInvariant {L : Type} (d : Dispatcher L) : Prop :=
  0 ≤ d.id ∧
  (∀ T E i, (d.atEvent T E i).isSome → 1 ≤ i ∧ i ≤ d.id) ∧
  (∀ T E T' E' i, (d.atEvent T E i).isSome → (d.atEvent T' E' i).isSome →
    T = T' ∧ E = E')

end Reach

/-! ## The loop of `start` -/

section Loop

variable {W L : Type}

/-- Where the goroutine that runs `start` stands: at the head of the `for`;
blocked in the `select`, whose operands `d.c` and `d.cq` were evaluated when it
was entered; in the body of `case e := <-d.c`; returned through `case <-d.cq`;
or unwound by the panic of a callback. -/
inductive Phase where
  | top
  | waiting (c cq : Option Nat)
  | delivering (e : Event)
  | returned
  | crashed
  deriving DecidableEq, Repr

/-- The dispatcher, the heap of its channels, the environment of the callbacks
and the place of the loop. -/
structure Loop (W L : Type) where
  d : Dispatcher L
  heap : Heap
  w : W
  phase : Phase

/-- What can happen next: the loop enters its `select`; a `Dispatch(e)` hands `e`
over and the loop takes `case e := <-d.c`; the loop runs the body of that case to
its end (the run time ranging in `order`); the loop takes `case <-d.cq` and
returns; some goroutine, or a callback, calls `close`. -/
inductive Action where
  | enter
  | receive (e : Event)
  | finish (order : List Int)
  | quit
  | close

/-- Whether a receive from a channel value can proceed without a sender: only
from a closed channel; a receive from a nil channel blocks for ever. -/
def recvReady (h : Heap) : Option Nat → Bool
  | none => false
  | some a =>
    match h.get? a with
    | some true => true
    | _ => false

/-- One step of the system, `none` when the action cannot happen in that state. -/
def step (call : Callbacks W L) (s : Loop W L) : Action → Option (Loop W L)
  | .enter =>
    match s.phase with
    | .top => some { s with phase := .waiting s.d.c s.d.cq }
    | _ => none
  | .receive e =>
    match s.phase with
    | .waiting (some _) _ => some { s with phase := .delivering e }
    | _ => none
  | .finish order =>
    match s.phase with
    | .delivering e =>
      let k := deliver call e order s.w s.d
      some { d := k.d, heap := s.heap, w := k.w,
             phase := if k.panicked then .crashed else .top }
    | _ => none
  | .quit =>
    match s.phase with
    | .waiting _ cq => if recvReady s.heap cq then some { s with phase := .returned } else none
    | _ => none
  | .close =>
    match s.phase with
    | .crashed => none
    | _ =>
      match close (s.d, s.heap) with
      | .ok r => some { s with d := r.1, heap := r.2 }
      | .error _ => none

/-- A sequence of steps, `none` when one of them cannot happen. -/
def run (call : Callbacks W L) (s : Loop W L) : List Action → Option (Loop W L)
  | [] => some s
  | a :: acts =>
    match step call s a with
    | none => none
    | some s' => run call s' acts

/-- The loop cannot take its shutdown branch any more: `d.cq` is nil, so is the
operand of a `select` it is blocked in, and it has not returned. -/
structure Deaf (s : Loop W L) : Prop where
  field_nil : s.d.cq = none
  operand_nil : ∀ c cq, s.phase = .waiting c cq → cq = none
  not_returned : s.phase ≠ .returned

end Loop

/-! ## The mutex

The methods of the registry bracket their bodies with `d.m.Lock()` and a deferred
`d.m.Unlock()`. Here the state of the mutex is followed along one goroutine:
`true` when that goroutine holds it. -/

section Mutex

variable {W L : Type}

/-- The call `d.m.Lock()`: it takes a free mutex; on a mutex the goroutine holds
already it never returns (`sync.Mutex` is not reentrant). -/
def lock (held : Bool) : Option Bool := if held then none else some true

/-- The call `d.m.Unlock()`: it frees a held mutex and is a fatal error on a free
one. -/
def unlock (held : Bool) : Option Bool := if held then some false else none

/-- The bracket `d.m.Lock(); defer d.m.Unlock()` around a method body with
result `r`. -/
def withLock {α : Type} (held : Bool) (r : α) : Option (Bool × α) :=
  match lock held with
  | none => none
  | some h1 =>
    match unlock h1 with
    | none => none
    | some h2 => some (h2, r)

/-- One registry call of a callback, with its bracket. -/
def applyOpM (held : Bool) (d : Dispatcher L) (op : Op L) : Option (Bool × Dispatcher L) :=
  withLock held (applyOp d op)

/-- The registry calls of a callback in order, each with its bracket. -/
def applyOpsM (held : Bool) (d : Dispatcher L) : List (Op L) → Option (Bool × Dispatcher L)
  | [] => some (held, d)
  | op :: ops =>
    match applyOpM held d op with
    | none => none
    | some r => applyOpsM r.1 r.2 ops

/-- The range statement of `start` as `deliverLoop` has it, with the mutex
followed: the result is `none` when a `Lock` never returns, and the list gives,
for each invocation of a listener, whether the loop held the mutex then. -/
def deliverLoopM (call : Callbacks W L) (e : Event) :
    List Int → Bool → W → Dispatcher L → Option (Bool × Delivery W L × List Bool)
  | [], m, w, d => some (m, { w := w, d := d, trace := [], panicked := false }, [])
  | id :: rest, m, w, d =>
    match (listeners d e.TargetID e.Name).1 id with
    | none => deliverLoopM call e rest m w d
    | some l =>
      -- l(e), the mutex being in state m
      let r := call l e w d
      match applyOpsM m d r.ops with
      | none => none
      | some r1 =>
        match r.ret with
        | none =>
          some (r1.1, { w := r.w, d := r1.2,
                        trace := [{ id := id, l := l, e := e, ret := none }],
                        panicked := true }, [m])
        | some b =>
          -- if l(e) { d.delListener(e.TargetID, e.Name, id) }
          match (if b then withLock r1.1 (delListener r1.2 e.TargetID e.Name id).2
                 else some (r1.1, r1.2)) with
          | none => none
          | some r2 =>
            match deliverLoopM call e rest r2.1 r.w r2.2 with
            | none => none
            | some k =>
              some (k.1, { k.2.1 with
                trace := { id := id, l := l, e := e, ret := some b } :: k.2.1.trace },
                m :: k.2.2)

/-- The body of `case e := <-d.c` as `deliver` has it, with the mutex followed:
`listeners` with its bracket, then the range statement. -/
def deliverM (call : Callbacks W L) (e : Event) (order : List Int) (held : Bool) (w : W)
    (d : Dispatcher L) : Option (Bool × Delivery W L × List Bool) :=
  match withLock held (listeners d e.TargetID e.Name) with
  | none => none
  | some r => deliverLoopM call e order r.1 w r.2.2

end Mutex

/-! ## Callbacks that change the registry, and one that panics -/

section Examples

/-- Listener 10 calls `delListener("win1", "ready", 2)` and listener 30 calls
`addListener("win1", "ready", 40)`; every listener returns false. -/
def mutatingCall : Callbacks Unit Nat :=
  fun l _ w _ =>
    { w := w,
      ops := if l = 10 then [Op.del "win1" "ready" 2]
             else if l = 30 then [Op.add "win1" "ready" 40] else [],
      ret := some false }

/-- Listener 10 panics; every other listener returns false. -/
def panickingCall : Callbacks Unit Nat :=
  fun l _ w _ => { w := w, ops := [], ret := if l = 10 then none else some false }

/-- A dispatcher with listener 30 alone, under id 1 of ("win1", "ready"). -/
def addingDispatcher : Dispatcher Nat :=
  (addListener (newDispatcher Nat []).1 "win1" "ready" 30).2

/-- The loop of the scenario before its first `select`: the dispatcher of the
scenario with its two open channels. -/
def scenarioLoop : Loop Unit Nat :=
  { d := scenarioDispatcher, heap := [false, false], w := (), phase := .top }

/-- The loop of the scenario delivering the event of the scenario: what
`scenarioLoop` becomes by entering the `select` and receiving the event. -/
def deliveringLoop : Loop Unit Nat :=
  { d := scenarioDispatcher, heap := [false, false], w := (),
    phase := .delivering scenarioEvent }

/-- What `deliveringLoop` becomes when `close` is called: the channel of `cq` is
closed and the field `cq` is nil. -/
def closedLoop : Loop Unit Nat :=
  { d := { scenarioDispatcher with cq := none }, heap := [false, true], w := (),
    phase := .delivering scenarioEvent }

/-- A dispatcher whose counter stands at `maxInt`: a new one after `maxInt`
registrations under ("t", "e"). -/
def fullDispatcher : Dispatcher Nat :=
  applyOps (newDispatcher Nat []).1 (List.replicate 9223372036854775807 (Op.add "t" "e" 0))

/-- A dispatcher whose counter has gone round: a new one after the registration of
listener 7 under ("t", "e"), which gets id 1, and 2^64 - 1 registrations under
("u", "f"), which bring the counter back to 0. -/
def wrappedDispatcher : Dispatcher Nat :=
  applyOps (addListener (newDispatcher Nat []).1 "t" "e" 7).2
    (List.replicate 18446744073709551615 (Op.add "u" "f" 0))

end Examples

/-! ## Lemmas on maps -/

namespace GoMap

variable {K V : Type}

@[simp]
theorem empty_apply (k : K) : (empty : GoMap K V) k = none := rfl
@[simp]
theorem set_apply [DecidableEq K] (m : GoMap K V) (k j : K) (v : V) :
    m.set k v j = if j = k then some v else m j := rfl
@[simp]
theorem delete_apply [DecidableEq K] (m : GoMap K V) (k j : K) :
    m.delete k j = if j = k then none else m j := rfl
theorem set_set [DecidableEq K] (m : GoMap K V) (k : K) (v v' : V) :
    (m.set k v).set k v' = m.set k v' := by
  funext j
  by_cases hj : j = k <;> simp [hj]
theorem set_same [DecidableEq K] (m : GoMap K V) (k : K) (v : V) (h : m k = some v) :
    m.set k v = m := by
  funext j
  by_cases hj : j = k
  · subst hj; simp [h]
  · simp [hj]
theorem delete_absent [DecidableEq K] (m : GoMap K V) (k : K) (h : m k = none) :
    m.delete k = m := by
  funext j
  by_cases hj : j = k
  · subst hj; simp [h]
  · simp [hj]

end GoMap

/-! ## Lemmas on the registry methods -/

section MethodLemmas

variable {L : Type}

theorem listeners_fst (d : Dispatcher L) (t n : String) :
    (listeners d t n).1 = d.atEvent t n := by
  unfold listeners Dispatcher.atEvent Dispatcher.atTarget
  cases h : d.l t with
  | none => rfl
  | some evs =>
    cases h2 : evs n with
    | none => simp [h2]
    | some m => simp [h2]

theorem listeners_snd (d : Dispatcher L) (t n : String) : (listeners d t n).2 = d := by
  unfold listeners
  cases h : d.l t with
  | none => rfl
  | some evs => cases h2 : evs n <;> simp [h2]

theorem addListener_snd (d : Dispatcher L) (t n : String) (l : L) :
    (addListener d t n l).2 =
      { d with
        id := wrapInt (d.id + 1)
        l := d.l.set t ((d.atTarget t).set n
          ((d.atEvent t n).set (wrapInt (d.id + 1)) l)) } := by
  unfold addListener
  cases h : d.l t with
  | none =>
    simp [Dispatcher.atTarget, Dispatcher.atEvent, h, GoMap.set_set]
  | some evs =>
    cases h2 : evs n with
    | none => simp [Dispatcher.atTarget, Dispatcher.atEvent, h, h2, GoMap.set_set]
    | some m => simp [Dispatcher.atTarget, Dispatcher.atEvent, h, h2, GoMap.set_set]

theorem delListener_snd (d : Dispatcher L) (t n : String) (i : Int) :
    (delListener d t n i).2 =
      match d.l t with
      | none => d
      | some evs =>
        match evs n with
        | none => d
        | some m => { d with l := d.l.set t (evs.set n (m.delete i)) } := by
  unfold delListener
  cases h : d.l t with
  | none => rfl
  | some evs => cases h2 : evs n <;> simp [h2]

theorem delListener_atEvent (d : Dispatcher L) (t n : String) (i : Int) (t' n' : String) :
    (delListener d t n i).2.atEvent t' n' =
      if t' = t ∧ n' = n then (d.atEvent t n).delete i else d.atEvent t' n' := by
  rw [delListener_snd]
  cases h : d.l t with
  | none =>
    by_cases hc : t' = t ∧ n' = n
    · obtain ⟨rfl, rfl⟩ := hc
      funext j
      simp [Dispatcher.atEvent, Dispatcher.atTarget, h]
    · simp [hc]
  | some evs =>
    cases h2 : evs n with
    | none =>
      by_cases hc : t' = t ∧ n' = n
      · obtain ⟨rfl, rfl⟩ := hc
        funext j
        simp [Dispatcher.atEvent, Dispatcher.atTarget, h, h2]
      · simp [hc, h2]
    | some m =>
      by_cases ht : t' = t
      · subst ht
        by_cases hn : n' = n
        · subst hn
          simp [Dispatcher.atEvent, Dispatcher.atTarget, h, h2]
        · simp [Dispatcher.atEvent, Dispatcher.atTarget, h, h2, hn]
      · simp [Dispatcher.atEvent, Dispatcher.atTarget, h, h2, ht]

theorem addListener_atEvent (d : Dispatcher L) (t n : String) (l : L) (t' n' : String) :
    (addListener d t n l).2.atEvent t' n' =
      if t' = t ∧ n' = n then (d.atEvent t n).set (wrapInt (d.id + 1)) l
      else d.atEvent t' n' := by
  rw [addListener_snd]
  by_cases ht : t' = t
  · subst ht
    by_cases hn : n' = n
    · subst hn
      simp [Dispatcher.atEvent, Dispatcher.atTarget]
    · simp [Dispatcher.atEvent, Dispatcher.atTarget, hn]
  · simp [Dispatcher.atEvent, Dispatcher.atTarget, ht]

theorem delListener_absent (d : Dispatcher L) (t n : String) (i : Int)
    (h : d.atEvent t n i = none) : (delListener d t n i).2 = d := by
  rw [delListener_snd]
  cases h1 : d.l t with
  | none => rfl
  | some evs =>
    cases h2 : evs n with
    | none => simp [h2]
    | some m =>
      have hm : m i = none := by
        simpa [Dispatcher.atEvent, Dispatcher.atTarget, h1, h2] using h
      simp only [h2]
      rw [GoMap.delete_absent m i hm, GoMap.set_same evs n m h2, GoMap.set_same d.l t evs h1]

end MethodLemmas

/-! ## Properties of the registry methods -/

section Registry

variable {L : Type}

theorem wrapInt_of_range (x : Int) (h1 : minInt ≤ x) (h2 : x ≤ maxInt) : wrapInt x = x := by
  unfold wrapInt
  unfold minInt at h1
  unfold maxInt at h2
  omega

theorem wrapInt_add (x y : Int) : wrapInt (wrapInt x + y) = wrapInt (x + y) := by
  unfold wrapInt
  omega

theorem wrapInt_range (x : Int) : minInt ≤ wrapInt x ∧ wrapInt x ≤ maxInt := by
  unfold wrapInt minInt maxInt
  omega

theorem addListener_id (d : Dispatcher L) (t n : String) (l : L) :
    (addListener d t n l).2.id = wrapInt (d.id + 1) := by
  rw [addListener_snd]

theorem delListener_id (d : Dispatcher L) (t n : String) (i : Int) :
    (delListener d t n i).2.id = d.id := by
  rw [delListener_snd]
  cases h1 : d.l t with
  | none => rfl
  | some evs => cases h2 : evs n <;> simp [h2]

theorem addListener_bucket (d : Dispatcher L) (T E : String) (l : L) :
    (listeners (addListener d T E l).2 T E).1
      = ((listeners d T E).1).set (wrapInt (d.id + 1)) l := by
  rw [listeners_fst, listeners_fst, addListener_atEvent]
  simp

theorem delListener_bucket (d : Dispatcher L) (T E : String) (i : Int) :
    (listeners (delListener d T E i).2 T E).1 = ((listeners d T E).1).delete i := by
  rw [listeners_fst, listeners_fst, delListener_atEvent]
  simp

/-- C3, as the code has it. Postcondition of `addListener`: the counter `d.id`
becomes its old value plus one as an `int`, that is the old value plus one when
the old value is an `int` below `maxInt`, and `minInt` when it is `maxInt`. The
bucket `listeners(T, E)` is the old one with the new counter value set to `L`: the
new id maps to `L` and every other id has the entry it had, whether or not the
target or the event bucket existed before. When the new counter value was no key
of the bucket, every entry of the old bucket is still there under its id. -/
theorem addListener_post (d : Dispatcher L) (T E : String) (l : L) :
    (addListener d T E l).2.id = wrapInt (d.id + 1) ∧
    (minInt ≤ d.id → d.id < maxInt → (addListener d T E l).2.id = d.id + 1) ∧
    (d.id = maxInt → (addListener d T E l).2.id = minInt) ∧
    (listeners (addListener d T E l).2 T E).1
      = ((listeners d T E).1).set (addListener d T E l).2.id l ∧
    (listeners (addListener d T E l).2 T E).1 (addListener d T E l).2.id = some l ∧
    (∀ j, j ≠ (addListener d T E l).2.id →
      (listeners (addListener d T E l).2 T E).1 j = (listeners d T E).1 j) ∧
    ((listeners d T E).1 (addListener d T E l).2.id = none →
      ∀ j l0, (listeners d T E).1 j = some l0 →
        (listeners (addListener d T E l).2 T E).1 j = some l0) := by
  have hid := addListener_id d T E l
  have hb := addListener_bucket d T E l
  rw [← hid] at hb
  refine ⟨hid, ?_, ?_, hb, ?_, ?_, ?_⟩
  · intro h1 h2
    rw [hid]
    unfold maxInt at h2
    exact wrapInt_of_range _ (by omega) (by unfold maxInt; omega)
  · intro h
    rw [hid, h]
    decide
  · rw [hb]; simp
  · intro j hj
    rw [hb]; simp [hj]
  · intro hfree j l0 hj
    have hne : j ≠ (addListener d T E l).2.id := by
      intro h
      rw [h, hfree] at hj
      simp at hj
    rw [hb]; simp [hne, hj]

/-- C6. Postcondition of `delListener`: the bucket `listeners(T, E)` is the old one
with the entry of `i` erased (`i` is no key any more, every other id keeps its
listener), and the bucket of every other pair is unchanged. -/
theorem delListener_post (d : Dispatcher L) (T E : String) (i : Int) :
    (listeners (delListener d T E i).2 T E).1 = ((listeners d T E).1).delete i ∧
    (listeners (delListener d T E i).2 T E).1 i = none ∧
    (∀ j, j ≠ i → (listeners (delListener d T E i).2 T E).1 j = (listeners d T E).1 j) ∧
    (∀ T' E', (T', E') ≠ (T, E) →
      (listeners (delListener d T E i).2 T' E').1 = (listeners d T' E').1) := by
  have hb : (listeners (delListener d T E i).2 T E).1 = ((listeners d T E).1).delete i := by
    rw [listeners_fst, listeners_fst, delListener_atEvent]
    simp
  refine ⟨hb, ?_, ?_, ?_⟩
  · rw [hb]; simp
  · intro j hj
    rw [hb]; simp [hj]
  · intro T' E' hne
    rw [listeners_fst, listeners_fst, delListener_atEvent]
    have : ¬ (T' = T ∧ E' = E) := fun h => hne (by rw [h.1, h.2])
    simp [this]

/-- C7. Removing a listener that is not there is a no-op: when `T` is no target of
the registry, or `E` no event bucket of `T`, or `i` no id of the bucket of
`(T, E)`, `delListener(T, E, i)` returns and leaves the dispatcher (the three
levels of the registry, the counter) as it was. -/
theorem delListener_missing (d : Dispatcher L) (T E : String) (i : Int)
    (h : d.l T = none ∨ (∃ evs, d.l T = some evs ∧ evs E = none) ∨
      (∃ evs m, d.l T = some evs ∧ evs E = some m ∧ m i = none)) :
    delListener d T E i = ((), d) := by
  have hd : (delListener d T E i).2 = d := by
    apply delListener_absent
    rcases h with h | ⟨evs, h1, h2⟩ | ⟨evs, m, h1, h2, h3⟩
    · simp [Dispatcher.atEvent, Dispatcher.atTarget, h]
    · simp [Dispatcher.atEvent, Dispatcher.atTarget, h1, h2]
    · simp [Dispatcher.atEvent, Dispatcher.atTarget, h1, h2, h3]
  exact Prod.ext rfl hd

/-- C8. Lookup is total and empty on a miss: `listeners(T, E)` returns a map for
every dispatcher and every pair, and leaves the dispatcher as it was (it creates
no bucket); the map is empty when `T` is no target or `E` no event bucket of `T`,
and it is the bucket stored under `(T, E)` otherwise. -/
theorem listeners_total (d : Dispatcher L) (T E : String) :
    (listeners d T E).2 = d ∧
    (d.l T = none → (listeners d T E).1 = GoMap.empty) ∧
    (∀ evs, d.l T = some evs → evs E = none → (listeners d T E).1 = GoMap.empty) ∧
    (∀ evs m, d.l T = some evs → evs E = some m → (listeners d T E).1 = m) := by
  refine ⟨listeners_snd d T E, ?_, ?_, ?_⟩
  · intro h
    simp [listeners, h]
  · intro evs h1 h2
    simp [listeners, h1, h2]
  · intro evs m h1 h2
    simp [listeners, h1, h2]

/-- Witness of C7 on a dispatcher holding one listener under ("win1", "ready"):
an unknown target, an unknown event name of a known target, and an unknown id of
an existing bucket. -/
theorem delListener_missing_witness :
    delListener (addListener (newDispatcher Nat []).1 "win1" "ready" 10).2 "win2" "ready" 1
      = ((), (addListener (newDispatcher Nat []).1 "win1" "ready" 10).2) ∧
    delListener (addListener (newDispatcher Nat []).1 "win1" "ready" 10).2 "win1" "close" 1
      = ((), (addListener (newDispatcher Nat []).1 "win1" "ready" 10).2) ∧
    delListener (addListener (newDispatcher Nat []).1 "win1" "ready" 10).2 "win1" "ready" 5
      = ((), (addListener (newDispatcher Nat []).1 "win1" "ready" 10).2) :=
  ⟨delListener_missing _ "win2" "ready" 1 (Or.inl rfl),
   delListener_missing _ "win1" "close" 1 (Or.inr (Or.inl ⟨_, rfl, rfl⟩)),
   delListener_missing _ "win1" "ready" 5 (Or.inr (Or.inr ⟨_, _, rfl, rfl, rfl⟩))⟩

theorem applyOps_append (xs ys : List (Op L)) (d : Dispatcher L) :
    applyOps d (xs ++ ys) = applyOps (applyOps d xs) ys := by
  induction xs generalizing d with
  | nil => rfl
  | cons op xs ih => exact ih _

theorem assignedIds_append (xs ys : List (Op L)) (d : Dispatcher L) :
    assignedIds d (xs ++ ys) = assignedIds d xs ++ assignedIds (applyOps d xs) ys := by
  induction xs generalizing d with
  | nil => rfl
  | cons op xs ih =>
    cases op with
    | add t n l =>
      show (addListener d t n l).2.id :: assignedIds (addListener d t n l).2 (xs ++ ys) = _
      rw [ih]
      rfl
    | del t n i =>
      show assignedIds (delListener d t n i).2 (xs ++ ys) = _
      rw [ih]
      rfl

theorem countAdds_append (xs ys : List (Op L)) :
    countAdds (xs ++ ys) = countAdds xs + countAdds ys := by
  induction xs with
  | nil => simp [countAdds]
  | cons op xs ih =>
    cases op with
    | add t n l =>
      show countAdds (xs ++ ys) + 1 = countAdds xs + 1 + countAdds ys
      omega
    | del t n i =>
      show countAdds (xs ++ ys) = countAdds xs + countAdds ys
      exact ih

/-- As long as the counter does not pass `maxInt`, it grows by the number of
`addListener` calls. -/
theorem applyOps_id (ops : List (Op L)) (d : Dispatcher L) (h0 : minInt ≤ d.id)
    (hb : d.id + countAdds ops ≤ maxInt) :
    (applyOps d ops).id = d.id + countAdds ops := by
  induction ops generalizing d with
  | nil => simp [applyOps, countAdds]
  | cons op ops ih =>
    cases op with
    | add t n l =>
      simp only [countAdds, Nat.cast_add, Nat.cast_one] at hb
      have hid : (addListener d t n l).2.id = d.id + 1 := by
        rw [addListener_id]
        exact wrapInt_of_range _ (by omega) (by omega)
      have := ih (addListener d t n l).2 (by omega) (by omega)
      simp only [applyOps, applyOp, countAdds, Nat.cast_add, Nat.cast_one]
      omega
    | del t n i =>
      simp only [countAdds] at hb
      have hid := delListener_id d t n i
      have := ih (delListener d t n i).2 (by omega) (by omega)
      simp only [applyOps, applyOp, countAdds]
      omega

/-- As long as the counter does not pass `maxInt`, every id assigned by a sequence
of registry calls lies above the counter before the sequence and at most at the
counter after it. -/
theorem assignedIds_bounds (ops : List (Op L)) (d : Dispatcher L) (h0 : minInt ≤ d.id)
    (hb : d.id + countAdds ops ≤ maxInt) :
    ∀ i ∈ assignedIds d ops, d.id < i ∧ i ≤ d.id + countAdds ops := by
  induction ops generalizing d with
  | nil => intro i hi; simp [assignedIds] at hi
  | cons op ops ih =>
    cases op with
    | add t n l =>
      intro i hi
      simp only [countAdds, Nat.cast_add, Nat.cast_one] at hb ⊢
      have hid : (addListener d t n l).2.id = d.id + 1 := by
        rw [addListener_id]
        exact wrapInt_of_range _ (by omega) (by omega)
      simp only [assignedIds, List.mem_cons] at hi
      rcases hi with hi | hi
      · omega
      · have := ih (addListener d t n l).2 (by omega) (by omega) i hi
        omega
    | del t n j =>
      intro i hi
      simp only [countAdds] at hb ⊢
      have hid := delListener_id d t n j
      simp only [assignedIds] at hi
      have := ih (delListener d t n j).2 (by omega) (by omega) i hi
      omega

/-- As long as the counter does not pass `maxInt`, the ids assigned by a sequence
of registry calls are strictly increasing. -/
theorem assignedIds_pairwise (ops : List (Op L)) (d : Dispatcher L) (h0 : minInt ≤ d.id)
    (hb : d.id + countAdds ops ≤ maxInt) :
    (assignedIds d ops).Pairwise (· < ·) := by
  induction ops generalizing d with
  | nil => simp [assignedIds]
  | cons op ops ih =>
    cases op with
    | add t n l =>
      simp only [countAdds, Nat.cast_add, Nat.cast_one] at hb
      have hid : (addListener d t n l).2.id = d.id + 1 := by
        rw [addListener_id]
        exact wrapInt_of_range _ (by omega) (by omega)
      simp only [assignedIds, List.pairwise_cons]
      refine ⟨fun i hi => ?_, ih _ (by omega) (by omega)⟩
      have := assignedIds_bounds ops (addListener d t n l).2 (by omega) (by omega) i hi
      omega
    | del t n j =>
      simp only [countAdds] at hb
      have hid := delListener_id d t n j
      simp only [assignedIds]
      exact ih _ (by omega) (by omega)

theorem newDispatcher_id (h : Heap) : (newDispatcher L h).1.id = 0 := rfl

/-- C4, as the code has it. Ids are fresh and never reused as long as the counter
has not wrapped around: for every sequence of `addListener` and `delListener`
calls on a dispatcher made by `newDispatcher` with at most `maxInt` calls of
`addListener`, the ids assigned are strictly increasing, hence pairwise distinct,
and no id assigned in the sequence is assigned again by calls that follow it
within that bound, whatever was deleted in between. `delListener` never changes
the counter, and the id assigned by an `addListener` call is the key under which
the call stored its listener. -/
theorem ids_fresh (h : Heap) (ops : List (Op L)) (hb : (countAdds ops : Int) ≤ maxInt) :
    (assignedIds (newDispatcher L h).1 ops).Pairwise (· < ·) ∧
    (assignedIds (newDispatcher L h).1 ops).Nodup ∧
    (∀ later : List (Op L), (countAdds (ops ++ later) : Int) ≤ maxInt →
      ∀ i ∈ assignedIds (newDispatcher L h).1 ops,
        i ∉ assignedIds (applyOps (newDispatcher L h).1 ops) later) ∧
    (∀ (d : Dispatcher L) (T E : String) (i : Int), (delListener d T E i).2.id = d.id) ∧
    (∀ (d : Dispatcher L) (T E : String) (l : L),
      (listeners (addListener d T E l).2 T E).1 (addListener d T E l).2.id = some l) := by
  have h0 : minInt ≤ (newDispatcher L h).1.id := by
    rw [newDispatcher_id]; decide
  have hb0 : (newDispatcher L h).1.id + countAdds ops ≤ maxInt := by
    rw [newDispatcher_id]; omega
  have hp := assignedIds_pairwise ops _ h0 hb0
  refine ⟨hp, hp.imp (fun hab => ne_of_lt hab), ?_, delListener_id, ?_⟩
  · intro later hl i hi hlater
    rw [countAdds_append] at hl
    simp only [Nat.cast_add] at hl
    have hid := applyOps_id ops _ h0 hb0
    rw [newDispatcher_id] at hid
    have h1 := (assignedIds_bounds ops _ h0 hb0 i hi).2
    rw [newDispatcher_id] at h1
    have h2 := (assignedIds_bounds later (applyOps (newDispatcher L h).1 ops)
      (by rw [hid]; unfold minInt; omega) (by rw [hid]; omega) i hlater).1
    omega
  · intro d T E l
    rw [addListener_bucket, addListener_id]
    simp

/-- C5, as the code has it. `addListener` has no result; the id under which it
stored `L` is the value of the counter `d.id` after the call, and `delListener`
with that id then removes that entry and no other from the bucket of `(T, E)`. -/
theorem addListener_id_is_counter (d : Dispatcher L) (T E : String) (l : L) :
    (addListener d T E l).1 = () ∧
    (listeners (addListener d T E l).2 T E).1 (addListener d T E l).2.id = some l ∧
    (listeners (delListener (addListener d T E l).2 T E (addListener d T E l).2.id).2 T E).1
      = ((listeners (addListener d T E l).2 T E).1).delete (addListener d T E l).2.id := by
  refine ⟨rfl, ?_, delListener_bucket _ T E _⟩
  rw [addListener_bucket, addListener_id]
  simp

/-- C5 does not hold as stated: two calls of `addListener` that store their
listeners under different ids (1 and 2) return the same thing, the empty result,
so what a call returns is not the id it allocated. -/
theorem addListener_returns_no_id :
    (listeners (addListener (newDispatcher Nat []).1 "win1" "ready" 10).2 "win1" "ready").1 1
      = some 10 ∧
    (listeners (addListener (addListener (newDispatcher Nat []).1 "win1" "ready" 10).2
      "win1" "ready" 20).2 "win1" "ready").1 2 = some 20 ∧
    (addListener (newDispatcher Nat []).1 "win1" "ready" 10).1
      = (addListener (addListener (newDispatcher Nat []).1 "win1" "ready" 10).2
          "win1" "ready" 20).1 := by
  decide

/-- C10. `close` is idempotent: a second `close` after a first one that returned
does not panic, closes no channel (the heap is as the first call left it) and
leaves dispatcher and heap exactly as the first call left them; `close` changes
neither the registry, nor the counter, nor the channel `c`, and leaves `cq` nil.
The first `close` returns whenever `cq` is nil or an open channel, in particular
on a dispatcher made by `newDispatcher`. -/
theorem close_idempotent (s : Dispatcher L × Heap) :
    (∀ s', close s = .ok s' →
      close s' = .ok s' ∧ s'.1.cq = none ∧
      s'.1.l = s.1.l ∧ s'.1.id = s.1.id ∧ s'.1.c = s.1.c) ∧
    ((s.1.cq = none ∨ ∃ a, s.1.cq = some a ∧ s.2.get? a = some false) →
      ∃ s', close s = .ok s') ∧
    (∀ h : Heap, ∃ s', close (newDispatcher L h) = .ok s') := by
  refine ⟨?_, ?_, ?_⟩
  · intro s' hs
    unfold close at hs
    cases hq : s.1.cq with
    | none =>
      rw [hq] at hs
      simp only [Except.ok.injEq] at hs
      subst hs
      simp [close, hq]
    | some a =>
      rw [hq] at hs
      simp only at hs
      cases hc : closeChan s.2 (some a) with
      | error p => rw [hc] at hs; simp at hs
      | ok h' =>
        rw [hc] at hs
        simp only [Except.ok.injEq] at hs
        subst hs
        simp [close]
  · rintro (hq | ⟨a, hq, ha⟩)
    · exact ⟨s, by simp [close, hq]⟩
    · rw [List.get?_eq_getElem?] at ha
      exact ⟨({ s.1 with cq := none }, s.2.set a true), by simp [close, hq, closeChan, ha]⟩
  · intro h
    refine ⟨({ (newDispatcher L h).1 with cq := none }, (newDispatcher L h).2.set (h.length + 1) true), ?_⟩
    simp [close, newDispatcher, makeChan, closeChan, List.getElem_append_right]

end Registry

section DeliveryLemmas

variable {W L : Type}

theorem deliverLoop_nil (call : Callbacks W L) (e : Event) (w : W) (d : Dispatcher L) :
    deliverLoop call e [] w d = { w := w, d := d, trace := [], panicked := false } := rfl

theorem deliverLoop_skip (call : Callbacks W L) (e : Event) (id : Int) (rest : List Int)
    (w : W) (d : Dispatcher L) (h : d.atEvent e.TargetID e.Name id = none) :
    deliverLoop call e (id :: rest) w d = deliverLoop call e rest w d := by
  rw [← listeners_fst] at h
  simp [deliverLoop, h]

theorem deliverLoop_call (call : Callbacks W L) (e : Event) (id : Int) (rest : List Int)
    (w : W) (d : Dispatcher L) (l : L) (b : Bool)
    (h : d.atEvent e.TargetID e.Name id = some l)
    (hops : (call l e w d).ops = []) (hret : (call l e w d).ret = some b) :
    deliverLoop call e (id :: rest) w d =
      { deliverLoop call e rest (call l e w d).w
          (if b then (delListener d e.TargetID e.Name id).2 else d) with
        trace := { id := id, l := l, e := e, ret := some b } ::
          (deliverLoop call e rest (call l e w d).w
            (if b then (delListener d e.TargetID e.Name id).2 else d)).trace } := by
  rw [← listeners_fst] at h
  simp [deliverLoop, h, hops, hret, applyOps]

theorem deliverLoop_quiet (call : Callbacks W L) (e : Event)
    (hmut : NoMutation call) (hret : Returns call) (order : List Int) (hnd : order.Nodup)
    (w : W) (d : Dispatcher L) :
    QuietOutcome e order d (deliverLoop call e order w d) := by
  induction order generalizing w d with
  | nil =>
    rw [deliverLoop_nil]
    exact {
      panicked := rfl
      ids := rfl
      entries := fun c hc => by simp at hc
      counter := rfl
      frame := fun _ _ _ => rfl
      removed := fun c hc => by simp at hc
      kept := fun _ _ => rfl }
  | cons id rest ih =>
    have hid : id ∉ rest := (List.nodup_cons.mp hnd).1
    have hrest : rest.Nodup := (List.nodup_cons.mp hnd).2
    cases hl : d.atEvent e.TargetID e.Name id with
    | none =>
      rw [deliverLoop_skip call e id rest w d hl]
      have h := ih hrest w d
      exact {
        panicked := h.panicked
        ids := by rw [h.ids]; simp [List.filter_cons, hl]
        entries := h.entries
        counter := h.counter
        frame := h.frame
        removed := h.removed
        kept := h.kept }
    | some l =>
      obtain ⟨b, hb⟩ := Option.isSome_iff_exists.mp (hret l e w d)
      rw [deliverLoop_call call e id rest w d l b hl (hmut l e w d) hb]
      have h := ih hrest (call l e w d).w
        (if b then (delListener d e.TargetID e.Name id).2 else d)
      -- the dispatcher the rest of the loop starts from
      have hd2 : ∀ j, j ≠ id →
          (if b then (delListener d e.TargetID e.Name id).2 else d).atEvent
            e.TargetID e.Name j = d.atEvent e.TargetID e.Name j := by
        intro j hj
        cases b with
        | false => rfl
        | true => simp [delListener_atEvent, hj]
      have hd2id : b = true →
          (if b then (delListener d e.TargetID e.Name id).2 else d).atEvent
            e.TargetID e.Name id = none := by
        intro hbt
        subst hbt
        simp [delListener_atEvent]
      have hd2frame : ∀ T N, ¬ (T = e.TargetID ∧ N = e.Name) →
          (if b then (delListener d e.TargetID e.Name id).2 else d).atEvent T N
            = d.atEvent T N := by
        intro T N hne
        cases b with
        | false => rfl
        | true => simp [delListener_atEvent, hne]
      have hd2cnt : (if b then (delListener d e.TargetID e.Name id).2 else d).id = d.id := by
        cases b with
        | false => rfl
        | true =>
          simp only [if_true]
          rw [delListener_snd]
          cases h1 : d.l e.TargetID with
          | none => rfl
          | some evs => cases h2 : evs e.Name <;> simp [h2]
      have hmem : ∀ c ∈ (deliverLoop call e rest (call l e w d).w
          (if b then (delListener d e.TargetID e.Name id).2 else d)).trace, c.id ≠ id := by
        intro c hc hcid
        have : c.id ∈ rest := by
          have hm : c.id ∈ List.map (fun c => c.id) (deliverLoop call e rest (call l e w d).w
              (if b then (delListener d e.TargetID e.Name id).2 else d)).trace :=
            List.mem_map_of_mem _ hc
          rw [h.ids] at hm
          exact (List.mem_filter.mp hm).1
        exact hid (hcid ▸ this)
      exact {
        panicked := h.panicked
        ids := by
          simp only [List.map_cons]
          rw [h.ids, List.filter_cons]
          simp only [hl, Option.isSome_some, if_true, List.cons.injEq, true_and]
          apply List.filter_congr
          intro j hj
          rw [hd2 j (fun hji => hid (hji ▸ hj))]
        entries := by
          intro c hc
          rcases List.mem_cons.mp hc with hc | hc
          · subst hc
            exact ⟨rfl, hl, rfl⟩
          · have hce := h.entries c hc
            refine ⟨hce.1, ?_, hce.2.2⟩
            rw [← hd2 c.id (hmem c hc)]
            exact hce.2.1
        counter := by rw [h.counter, hd2cnt]
        frame := by
          intro T N hne
          rw [h.frame T N hne, hd2frame T N hne]
        removed := by
          intro c hc hct
          rcases List.mem_cons.mp hc with hc | hc
          · subst hc
            have hbt : b = true := by simpa using hct
            rw [h.kept id (fun c hc hcid => absurd hcid (hmem c hc))]
            exact hd2id hbt
          · exact h.removed c hc hct
        kept := by
          intro j hj
          have hj' : ∀ c ∈ (deliverLoop call e rest (call l e w d).w
              (if b then (delListener d e.TargetID e.Name id).2 else d)).trace,
              c.id = j → c.ret ≠ some true :=
            fun c hc => hj c (List.mem_cons_of_mem _ hc)
          rw [h.kept j hj']
          by_cases hji : j = id
          · subst hji
            have hbf : b = false := by
              have := hj { id := j, l := l, e := e, ret := some b } (List.mem_cons_self _ _) rfl
              cases b with
              | false => rfl
              | true => exact absurd rfl this
            subst hbf
            rfl
          · exact hd2 j hji }

theorem filter_id_singleton (tr : List (Invocation L))
    (hnd : (tr.map (fun c => c.id)).Nodup) (c : Invocation L) (hc : c ∈ tr) :
    tr.filter (fun x => decide (x.id = c.id)) = [c] := by
  induction tr with
  | nil => simp at hc
  | cons x xs ih =>
    simp only [List.map_cons, List.nodup_cons] at hnd
    rcases List.mem_cons.mp hc with hcx | hcx
    · subst hcx
      have hnone : xs.filter (fun x => decide (x.id = c.id)) = [] := by
        rw [List.filter_eq_nil_iff]
        intro y hy hyc
        have hyc' : y.id = c.id := of_decide_eq_true hyc
        exact hnd.1 (hyc' ▸ List.mem_map_of_mem (fun c => c.id) hy)
      simp [List.filter_cons, hnone]
    · have hne : x.id ≠ c.id := fun heq =>
        hnd.1 (heq ▸ List.mem_map_of_mem (fun c => c.id) hcx)
      simp [List.filter_cons, hne, ih hnd.2 hcx]

theorem quietOutcome_once {e : Event} {order : List Int} {d : Dispatcher L}
    {k : Delivery W L} (h : QuietOutcome e order d k)
    (hord : RangeOrder order (d.atEvent e.TargetID e.Name)) (id : Int) (l : L)
    (hl : d.atEvent e.TargetID e.Name id = some l) :
    ∃ b, k.trace.filter (fun c => decide (c.id = id))
      = [{ id := id, l := l, e := e, ret := some b }] := by
  have hin : id ∈ k.trace.map (fun c => c.id) := by
    rw [h.ids]
    exact List.mem_filter.mpr ⟨hord.2 id (by simp [hl]), by simp [hl]⟩
  obtain ⟨c, hc, hcid⟩ := List.mem_map.mp hin
  have hnd : (k.trace.map (fun c => c.id)).Nodup := by
    rw [h.ids]
    exact hord.1.filter _
  have hce := h.entries c hc
  obtain ⟨b, hb⟩ := Option.isSome_iff_exists.mp hce.2.2
  refine ⟨b, ?_⟩
  have hf := filter_id_singleton _ hnd c hc
  rw [hcid] at hf
  rw [hf]
  have hcl : c.l = l := by
    have := hce.2.1
    rw [hcid, hl] at this
    exact (Option.some.inj this).symm
  cases c with
  | mk cid cl ce cret =>
    simp only at hcid hcl hb hce
    simp [hcid, hcl, hb, hce.1]

theorem quietOutcome_bucket {e : Event} {order : List Int} {d : Dispatcher L}
    {k : Delivery W L} (h : QuietOutcome e order d k)
    (hord : RangeOrder order (d.atEvent e.TargetID e.Name)) (j : Int) (l : L) :
    k.d.atEvent e.TargetID e.Name j = some l ↔
      (d.atEvent e.TargetID e.Name j = some l ∧
        ∃ c ∈ k.trace, c.id = j ∧ c.ret = some false) := by
  have hnd : (k.trace.map (fun c => c.id)).Nodup := by
    rw [h.ids]
    exact hord.1.filter _
  constructor
  · intro hj
    have hno : ∀ c ∈ k.trace, c.id = j → c.ret ≠ some true := by
      intro c hc hcj hct
      have := h.removed c hc hct
      rw [hcj, hj] at this
      exact absurd this (by simp)
    have hkept := h.kept j hno
    rw [hj] at hkept
    have hin : j ∈ k.trace.map (fun c => c.id) := by
      rw [h.ids]
      exact List.mem_filter.mpr ⟨hord.2 j (by simp [← hkept]), by simp [← hkept]⟩
    obtain ⟨c, hc, hcid⟩ := List.mem_map.mp hin
    refine ⟨hkept.symm, c, hc, hcid, ?_⟩
    obtain ⟨b, hb⟩ := Option.isSome_iff_exists.mp (h.entries c hc).2.2
    cases b with
    | false => exact hb
    | true => exact absurd hb (hno c hc hcid)
  · rintro ⟨hj, c, hc, hcid, hcf⟩
    have hno : ∀ c' ∈ k.trace, c'.id = j → c'.ret ≠ some true := by
      intro c' hc' hcj hct
      have hf := filter_id_singleton _ hnd c hc
      have hmem : c' ∈ k.trace.filter (fun x => decide (x.id = c.id)) :=
        List.mem_filter.mpr ⟨hc', by simp [hcj, hcid]⟩
      rw [hf] at hmem
      have heq : c' = c := by simpa using hmem
      rw [heq, hcf] at hct
      simp at hct
    rw [h.kept j hno]
    exact hj

theorem deliver_quiet (call : Callbacks W L) (e : Event)
    (hmut : NoMutation call) (hret : Returns call) (order : List Int) (hnd : order.Nodup)
    (w : W) (d : Dispatcher L) :
    QuietOutcome e order d (deliver call e order w d) := by
  unfold deliver
  rw [listeners_snd]
  exact deliverLoop_quiet call e hmut hret order hnd w d

end DeliveryLemmas

/-! ## Properties of the delivery of one event -/

section DeliveryClaims

variable {W L : Type}

/-- C1. Delivery of one event `e` when no callback changes the registry (and each
returns): every listener stored under `(e.TargetID, e.Name)` at that moment is
invoked exactly once, with `e` (the invocations of its id are one invocation, of
that listener, with `e`), and every invocation made is of an id and listener
stored under that pair, so nothing stored under another pair is invoked. Two
listeners of the same pair are two ids of the bucket, and each is invoked once. -/
theorem deliver_invokes_each_once (call : Callbacks W L) (e : Event) (order : List Int)
    (w : W) (d : Dispatcher L) (hmut : NoMutation call) (hret : Returns call)
    (hord : RangeOrder order (listeners d e.TargetID e.Name).1) :
    (deliver call e order w d).panicked = false ∧
    (∀ id l, (listeners d e.TargetID e.Name).1 id = some l →
      ∃ b, (deliver call e order w d).trace.filter (fun c => decide (c.id = id))
        = [{ id := id, l := l, e := e, ret := some b }]) ∧
    (∀ c ∈ (deliver call e order w d).trace,
      c.e = e ∧ (listeners d e.TargetID e.Name).1 c.id = some c.l) := by
  have h := deliver_quiet call e hmut hret order hord.1 w d
  rw [listeners_fst] at hord ⊢
  exact ⟨h.panicked, fun id l hl => quietOutcome_once h hord id l hl,
    fun c hc => ⟨(h.entries c hc).1, (h.entries c hc).2.1⟩⟩

/-- C2. Self-removal by return value, callbacks not otherwise changing the
registry: after the delivery of `e` the bucket of `(e.TargetID, e.Name)` holds
exactly the entries it held whose invocation returned false, under the same ids,
and every listener that returned true is gone. A second delivery of the same
event then invokes, once each, the listeners that returned false the first time,
and none of those that returned true. -/
theorem deliver_self_removal (call : Callbacks W L) (e : Event) (order order2 : List Int)
    (w : W) (d : Dispatcher L) (hmut : NoMutation call) (hret : Returns call)
    (hord : RangeOrder order (listeners d e.TargetID e.Name).1)
    (hord2 : RangeOrder order2
      (listeners (deliver call e order w d).d e.TargetID e.Name).1) :
    (∀ j l, (listeners (deliver call e order w d).d e.TargetID e.Name).1 j = some l ↔
      ((listeners d e.TargetID e.Name).1 j = some l ∧
        ∃ c ∈ (deliver call e order w d).trace, c.id = j ∧ c.ret = some false)) ∧
    (∀ c ∈ (deliver call e order w d).trace, c.ret = some true →
      (listeners (deliver call e order w d).d e.TargetID e.Name).1 c.id = none) ∧
    (∀ c ∈ (deliver call e order w d).trace, c.ret = some false →
      ∃ b, (deliver call e order2 (deliver call e order w d).w
          (deliver call e order w d).d).trace.filter (fun c2 => decide (c2.id = c.id))
        = [{ id := c.id, l := c.l, e := e, ret := some b }]) ∧
    (∀ c ∈ (deliver call e order w d).trace, c.ret = some true →
      ∀ c2 ∈ (deliver call e order2 (deliver call e order w d).w
          (deliver call e order w d).d).trace, c2.id ≠ c.id) ∧
    (∀ c2 ∈ (deliver call e order2 (deliver call e order w d).w
          (deliver call e order w d).d).trace,
      ∃ c ∈ (deliver call e order w d).trace,
        c.id = c2.id ∧ c.l = c2.l ∧ c.ret = some false) := by
  have h1 := deliver_quiet call e hmut hret order hord.1 w d
  have h2 := deliver_quiet call e hmut hret order2 hord2.1 (deliver call e order w d).w
    (deliver call e order w d).d
  simp only [listeners_fst] at hord hord2 ⊢
  have hb := quietOutcome_bucket h1 hord
  refine ⟨hb, fun c hc hct => h1.removed c hc hct, ?_, ?_, ?_⟩
  · intro c hc hcf
    have hstored : (deliver call e order w d).d.atEvent e.TargetID e.Name c.id = some c.l :=
      (hb c.id c.l).mpr ⟨(h1.entries c hc).2.1, c, hc, rfl, hcf⟩
    exact quietOutcome_once h2 hord2 c.id c.l hstored
  · intro c hc hct c2 hc2 heq
    have hnone := h1.removed c hc hct
    have hsome := (h2.entries c2 hc2).2.1
    rw [heq, hnone] at hsome
    simp at hsome
  · intro c2 hc2
    obtain ⟨hold, c, hc, hcid, hcf⟩ := (hb c2.id c2.l).mp (h2.entries c2 hc2).2.1
    refine ⟨c, hc, hcid, ?_, hcf⟩
    have := (h1.entries c hc).2.1
    rw [hcid, hold] at this
    exact (Option.some.inj this).symm

/-- C9. Delivering an event without listeners does nothing: when the bucket of
`(e.TargetID, e.Name)` is missing or empty, the delivery invokes no listener, does
not panic, and leaves the dispatcher (registry and counter) as it was. -/
theorem deliver_no_listeners (call : Callbacks W L) (e : Event) (order : List Int)
    (w : W) (d : Dispatcher L)
    (h : ∀ id, (listeners d e.TargetID e.Name).1 id = none) :
    deliver call e order w d = { w := w, d := d, trace := [], panicked := false } := by
  unfold deliver
  rw [listeners_snd]
  rw [listeners_fst] at h
  induction order with
  | nil => rfl
  | cons id rest ih => rw [deliverLoop_skip call e id rest w d (h id)]; exact ih

theorem scenario_bucket :
    (listeners scenarioDispatcher "win1" "ready").1 = (GoMap.empty.set 1 10).set 2 20 := rfl

theorem scenario_order : RangeOrder [2, 1]
    (listeners scenarioDispatcher scenarioEvent.TargetID scenarioEvent.Name).1 := by
  refine ⟨by decide, ?_⟩
  intro id h
  have hb : (listeners scenarioDispatcher scenarioEvent.TargetID scenarioEvent.Name).1
      = (GoMap.empty.set 1 10).set 2 20 := rfl
  rw [hb] at h
  by_cases h2 : id = 2
  · simp [h2]
  · by_cases h1 : id = 1
    · simp [h1]
    · simp [h1, h2] at h

/-- Witness of C1 on the scenario, the run time visiting id 2 before id 1: both
listeners are invoked, once each. -/
theorem deliver_invokes_each_once_witness :
    ((deliver scenarioCall scenarioEvent [2, 1] () scenarioDispatcher).panicked = false ∧
    (∀ id l, (listeners scenarioDispatcher scenarioEvent.TargetID scenarioEvent.Name).1 id
        = some l →
      ∃ b, (deliver scenarioCall scenarioEvent [2, 1] () scenarioDispatcher).trace.filter
          (fun c => decide (c.id = id))
        = [{ id := id, l := l, e := scenarioEvent, ret := some b }]) ∧
    (∀ c ∈ (deliver scenarioCall scenarioEvent [2, 1] () scenarioDispatcher).trace,
      c.e = scenarioEvent ∧
      (listeners scenarioDispatcher scenarioEvent.TargetID scenarioEvent.Name).1 c.id
        = some c.l)) ∧
    (deliver scenarioCall scenarioEvent [2, 1] () scenarioDispatcher).trace.map
      (fun c => (c.id, c.l, c.ret)) = [(2, 20, some true), (1, 10, some false)] :=
  ⟨deliver_invokes_each_once scenarioCall scenarioEvent [2, 1] () scenarioDispatcher
    (fun _ _ _ _ => rfl) (fun _ _ _ _ => rfl) scenario_order, by decide⟩

theorem scenario_order2 : RangeOrder [1, 2]
    (listeners (deliver scenarioCall scenarioEvent [2, 1] () scenarioDispatcher).d
      scenarioEvent.TargetID scenarioEvent.Name).1 := by
  refine ⟨by decide, ?_⟩
  intro id h
  have hb : (listeners (deliver scenarioCall scenarioEvent [2, 1] () scenarioDispatcher).d
      scenarioEvent.TargetID scenarioEvent.Name).1
      = ((GoMap.empty.set 1 10).set 2 20).delete 2 := rfl
  rw [hb] at h
  by_cases h2 : id = 2
  · simp [h2]
  · by_cases h1 : id = 1
    · simp [h1]
    · simp [h1, h2] at h

/-- Witness of C2, the scenario of the specification: the first event fires `L2`
(id 2, returns true) and `L1` (id 1, returns false), the second one only `L1`. -/
theorem deliver_self_removal_witness :
    ((∀ j l,
      (listeners (deliver scenarioCall scenarioEvent [2, 1] () scenarioDispatcher).d
        scenarioEvent.TargetID scenarioEvent.Name).1 j = some l ↔
      ((listeners scenarioDispatcher scenarioEvent.TargetID scenarioEvent.Name).1 j = some l ∧
        ∃ c ∈ (deliver scenarioCall scenarioEvent [2, 1] () scenarioDispatcher).trace,
          c.id = j ∧ c.ret = some false)) ∧
    (∀ c ∈ (deliver scenarioCall scenarioEvent [2, 1] () scenarioDispatcher).trace,
      c.ret = some true →
      (listeners (deliver scenarioCall scenarioEvent [2, 1] () scenarioDispatcher).d
        scenarioEvent.TargetID scenarioEvent.Name).1 c.id = none) ∧
    (∀ c ∈ (deliver scenarioCall scenarioEvent [2, 1] () scenarioDispatcher).trace,
      c.ret = some false →
      ∃ b, (deliver scenarioCall scenarioEvent [1, 2]
          (deliver scenarioCall scenarioEvent [2, 1] () scenarioDispatcher).w
          (deliver scenarioCall scenarioEvent [2, 1] () scenarioDispatcher).d).trace.filter
            (fun c2 => decide (c2.id = c.id))
        = [{ id := c.id, l := c.l, e := scenarioEvent, ret := some b }]) ∧
    (∀ c ∈ (deliver scenarioCall scenarioEvent [2, 1] () scenarioDispatcher).trace,
      c.ret = some true →
      ∀ c2 ∈ (deliver scenarioCall scenarioEvent [1, 2]
          (deliver scenarioCall scenarioEvent [2, 1] () scenarioDispatcher).w
          (deliver scenarioCall scenarioEvent [2, 1] () scenarioDispatcher).d).trace,
        c2.id ≠ c.id) ∧
    (∀ c2 ∈ (deliver scenarioCall scenarioEvent [1, 2]
          (deliver scenarioCall scenarioEvent [2, 1] () scenarioDispatcher).w
          (deliver scenarioCall scenarioEvent [2, 1] () scenarioDispatcher).d).trace,
      ∃ c ∈ (deliver scenarioCall scenarioEvent [2, 1] () scenarioDispatcher).trace,
        c.id = c2.id ∧ c.l = c2.l ∧ c.ret = some false)) ∧
    (deliver scenarioCall scenarioEvent [2, 1] () scenarioDispatcher).trace.map
      (fun c => (c.id, c.l, c.ret)) = [(2, 20, some true), (1, 10, some false)] ∧
    (deliver scenarioCall scenarioEvent [1, 2]
      (deliver scenarioCall scenarioEvent [2, 1] () scenarioDispatcher).w
      (deliver scenarioCall scenarioEvent [2, 1] () scenarioDispatcher).d).trace.map
      (fun c => (c.id, c.l, c.ret)) = [(1, 10, some false)] :=
  ⟨deliver_self_removal scenarioCall scenarioEvent [2, 1] [1, 2] () scenarioDispatcher
    (fun _ _ _ _ => rfl) (fun _ _ _ _ => rfl) scenario_order scenario_order2,
    by decide, by decide⟩

/-- Witness of C9: an event for ("win1", "ready") on a new dispatcher. -/
theorem deliver_no_listeners_witness :
    deliver scenarioCall scenarioEvent [2, 1] () (newDispatcher Nat []).1
      = { w := (), d := (newDispatcher Nat []).1, trace := [], panicked := false } :=
  deliver_no_listeners scenarioCall scenarioEvent [2, 1] () (newDispatcher Nat []).1
    (fun _ => rfl)

end DeliveryClaims

/-! ## Delivery with callbacks that change the registry or panic -/

section LiveDelivery

variable {W L : Type}

theorem deliverLoop_panic (call : Callbacks W L) (e : Event) (id : Int) (rest : List Int)
    (w : W) (d : Dispatcher L) (l : L)
    (h : d.atEvent e.TargetID e.Name id = some l) (hret : (call l e w d).ret = none) :
    deliverLoop call e (id :: rest) w d =
      { w := (call l e w d).w, d := applyOps d (call l e w d).ops,
        trace := [{ id := id, l := l, e := e, ret := none }], panicked := true } := by
  rw [← listeners_fst] at h
  simp [deliverLoop, h, hret]

theorem deliverLoop_ret (call : Callbacks W L) (e : Event) (id : Int) (rest : List Int)
    (w : W) (d : Dispatcher L) (l : L) (b : Bool)
    (h : d.atEvent e.TargetID e.Name id = some l) (hret : (call l e w d).ret = some b) :
    deliverLoop call e (id :: rest) w d =
      { deliverLoop call e rest (call l e w d).w
          (if b then (delListener (applyOps d (call l e w d).ops) e.TargetID e.Name id).2
           else applyOps d (call l e w d).ops) with
        trace := { id := id, l := l, e := e, ret := some b } ::
          (deliverLoop call e rest (call l e w d).w
            (if b then (delListener (applyOps d (call l e w d).ops) e.TargetID e.Name id).2
             else applyOps d (call l e w d).ops)).trace } := by
  rw [← listeners_fst] at h
  simp [deliverLoop, h, hret]

theorem deliverLoop_append (call : Callbacks W L) (e : Event) (xs ys : List Int)
    (w : W) (d : Dispatcher L) :
    deliverLoop call e (xs ++ ys) w d =
      if (deliverLoop call e xs w d).panicked then deliverLoop call e xs w d
      else
        { deliverLoop call e ys (deliverLoop call e xs w d).w (deliverLoop call e xs w d).d with
          trace := (deliverLoop call e xs w d).trace ++
            (deliverLoop call e ys (deliverLoop call e xs w d).w
              (deliverLoop call e xs w d).d).trace } := by
  induction xs generalizing w d with
  | nil => simp [deliverLoop]
  | cons id rest ih =>
    simp only [List.cons_append]
    cases hl : d.atEvent e.TargetID e.Name id with
    | none =>
      rw [deliverLoop_skip call e id (rest ++ ys) w d hl, deliverLoop_skip call e id rest w d hl]
      exact ih w d
    | some l =>
      cases hr : (call l e w d).ret with
      | none =>
        rw [deliverLoop_panic call e id (rest ++ ys) w d l hl hr,
          deliverLoop_panic call e id rest w d l hl hr]
        simp
      | some b =>
        rw [deliverLoop_ret call e id (rest ++ ys) w d l b hl hr,
          deliverLoop_ret call e id rest w d l b hl hr, ih]
        generalize (if b then (delListener (applyOps d (call l e w d).ops)
          e.TargetID e.Name id).2 else applyOps d (call l e w d).ops) = d2
        cases hp : (deliverLoop call e rest (call l e w d).w d2).panicked <;> simp [hp]

theorem deliverLoop_trace_mem (call : Callbacks W L) (e : Event) (order : List Int)
    (w : W) (d : Dispatcher L) :
    ∀ c ∈ (deliverLoop call e order w d).trace, c.id ∈ order := by
  induction order generalizing w d with
  | nil => intro c hc; simp [deliverLoop] at hc
  | cons id rest ih =>
    intro c hc
    cases hl : d.atEvent e.TargetID e.Name id with
    | none =>
      rw [deliverLoop_skip call e id rest w d hl] at hc
      exact List.mem_cons_of_mem _ (ih w d c hc)
    | some l =>
      cases hr : (call l e w d).ret with
      | none =>
        rw [deliverLoop_panic call e id rest w d l hl hr] at hc
        simp only [List.mem_singleton] at hc
        rw [hc]
        exact List.mem_cons_self _ _
      | some b =>
        rw [deliverLoop_ret call e id rest w d l b hl hr] at hc
        simp only [List.mem_cons] at hc
        rcases hc with hc | hc
        · rw [hc]
          exact List.mem_cons_self _ _
        · exact List.mem_cons_of_mem _ (ih _ _ c hc)

/-- C14, as the code has it. The delivery ranges over the bucket itself, not over
a copy: when the iteration, not having panicked, reaches an id, the listener is
invoked exactly when the bucket holds an entry of that id at that moment, and it
is the listener stored at that moment. An id without entry then is passed over
(the delivery is the one of the order without it), so a listener whose entry a
callback deleted before it was reached is not invoked for the event; an id with
an entry then is invoked next, also when a callback added the entry during the
delivery. -/
theorem deliver_ranges_live_bucket (call : Callbacks W L) (e : Event)
    (pre : List Int) (id : Int) (post : List Int) (w : W) (d : Dispatcher L)
    (hpre : (deliver call e pre w d).panicked = false) :
    ((listeners (deliver call e pre w d).d e.TargetID e.Name).1 id = none →
      deliver call e (pre ++ id :: post) w d = deliver call e (pre ++ post) w d ∧
      (id ∉ pre → id ∉ post →
        ∀ c ∈ (deliver call e (pre ++ id :: post) w d).trace, c.id ≠ id)) ∧
    (∀ l, (listeners (deliver call e pre w d).d e.TargetID e.Name).1 id = some l →
      ∃ tl, (deliver call e (pre ++ id :: post) w d).trace =
        (deliver call e pre w d).trace ++
          { id := id, l := l, e := e,
            ret := (call l e (deliver call e pre w d).w (deliver call e pre w d).d).ret }
            :: tl) := by
  unfold deliver at hpre ⊢
  simp only [listeners_snd, listeners_fst] at hpre ⊢
  constructor
  · intro hnone
    have heq : deliverLoop call e (pre ++ id :: post) w d
        = deliverLoop call e (pre ++ post) w d := by
      rw [deliverLoop_append call e pre (id :: post), deliverLoop_append call e pre post,
        deliverLoop_skip call e id post _ _ hnone]
    refine ⟨heq, ?_⟩
    intro h1 h2 c hc hcid
    rw [heq] at hc
    have := deliverLoop_trace_mem call e (pre ++ post) w d c hc
    rw [hcid] at this
    rcases List.mem_append.mp this with h | h
    · exact h1 h
    · exact h2 h
  · intro l hl
    rw [deliverLoop_append call e pre (id :: post)]
    simp only [hpre, Bool.false_eq_true, if_false]
    cases hr : (call l e (deliverLoop call e pre w d).w (deliverLoop call e pre w d).d).ret with
    | none =>
      rw [deliverLoop_panic call e id post _ _ l hl hr]
      exact ⟨[], rfl⟩
    | some b =>
      rw [deliverLoop_ret call e id post _ _ l b hl hr]
      exact ⟨_, rfl⟩

/-- C14 does not hold as stated. With listeners 10 and 20 stored under ids 1 and 2
at the lookup, the callback of 10, reached first, deletes id 2, and 20 is not
invoked for the event. With listener 30 alone at the lookup, its callback adds
listener 40 to the bucket (id 2), and when the iteration goes on to id 2, as Go
allows, 40 is invoked for the event. -/
theorem delivery_is_no_snapshot :
    (listeners scenarioDispatcher scenarioEvent.TargetID scenarioEvent.Name).1 2 = some 20 ∧
    (deliver mutatingCall scenarioEvent [1, 2] () scenarioDispatcher).trace.map
      (fun c => (c.id, c.l, c.ret)) = [(1, 10, some false)] ∧
    (listeners addingDispatcher scenarioEvent.TargetID scenarioEvent.Name).1 2 = none ∧
    (deliver mutatingCall scenarioEvent [1, 2] () addingDispatcher).trace.map
      (fun c => (c.id, c.l, c.ret)) = [(1, 30, some false), (2, 40, some false)] := by
  decide

/-- Witness of C14 on the dispatcher of the scenario: after the callback of
listener 10 (id 1) has deleted id 2, id 2 is passed over. -/
theorem deliver_ranges_live_bucket_witness :
    (((listeners (deliver mutatingCall scenarioEvent [1] () scenarioDispatcher).d
        scenarioEvent.TargetID scenarioEvent.Name).1 2 = none →
      deliver mutatingCall scenarioEvent ([1] ++ 2 :: []) () scenarioDispatcher
        = deliver mutatingCall scenarioEvent ([1] ++ []) () scenarioDispatcher ∧
      ((2 : Int) ∉ [1] → (2 : Int) ∉ [] →
        ∀ c ∈ (deliver mutatingCall scenarioEvent ([1] ++ 2 :: []) () scenarioDispatcher).trace,
          c.id ≠ 2)) ∧
    (∀ l, (listeners (deliver mutatingCall scenarioEvent [1] () scenarioDispatcher).d
        scenarioEvent.TargetID scenarioEvent.Name).1 2 = some l →
      ∃ tl, (deliver mutatingCall scenarioEvent ([1] ++ 2 :: []) () scenarioDispatcher).trace =
        (deliver mutatingCall scenarioEvent [1] () scenarioDispatcher).trace ++
          { id := 2, l := l, e := scenarioEvent,
            ret := (mutatingCall l scenarioEvent
              (deliver mutatingCall scenarioEvent [1] () scenarioDispatcher).w
              (deliver mutatingCall scenarioEvent [1] () scenarioDispatcher).d).ret }
            :: tl)) ∧
    (listeners (deliver mutatingCall scenarioEvent [1] () scenarioDispatcher).d
        scenarioEvent.TargetID scenarioEvent.Name).1 2 = none :=
  ⟨deliver_ranges_live_bucket mutatingCall scenarioEvent [1] 2 [] () scenarioDispatcher
    (by decide), by decide⟩

end LiveDelivery

/-! ## The invariant of the registry -/

section Invariant

variable {W L : Type}

theorem addListener_present (d : Dispatcher L) (t n : String) (l : L) (t' n' : String)
    (i : Int) (h : ((addListener d t n l).2.atEvent t' n' i).isSome) :
    (i = wrapInt (d.id + 1) ∧ t' = t ∧ n' = n) ∨ (d.atEvent t' n' i).isSome := by
  rw [addListener_atEvent] at h
  by_cases hc : t' = t ∧ n' = n
  · rw [if_pos hc] at h
    by_cases hi : i = wrapInt (d.id + 1)
    · exact Or.inl ⟨hi, hc⟩
    · right
      rw [hc.1, hc.2]
      simpa [hi] using h
  · rw [if_neg hc] at h
    exact Or.inr h

theorem delListener_present (d : Dispatcher L) (t n : String) (j : Int) (t' n' : String)
    (i : Int) (h : ((delListener d t n j).2.atEvent t' n' i).isSome) :
    (d.atEvent t' n' i).isSome := by
  rw [delListener_atEvent] at h
  by_cases hc : t' = t ∧ n' = n
  · rw [if_pos hc] at h
    rw [hc.1, hc.2]
    by_cases hi : i = j
    · simp [hi] at h
    · simpa [hi] using h
  · rw [if_neg hc] at h
    exact h

theorem idInvariant_new (h : Heap) : IdInvariant (newDispatcher L h).1 := by
  refine ⟨le_refl _, ?_, ?_⟩
  · intro T E i hi
    simp [newDispatcher, Dispatcher.atEvent, Dispatcher.atTarget] at hi
  · intro T E T' E' i hi
    simp [newDispatcher, Dispatcher.atEvent, Dispatcher.atTarget] at hi

theorem idInvariant_add (d : Dispatcher L) (t n : String) (l : L) (h : IdInvariant d)
    (hlt : d.id < maxInt) : IdInvariant (addListener d t n l).2 := by
  obtain ⟨h0, hb, hu⟩ := h
  have hw : wrapInt (d.id + 1) = d.id + 1 :=
    wrapInt_of_range _ (by unfold minInt; omega) (by omega)
  have hid : (addListener d t n l).2.id = d.id + 1 := by rw [addListener_id, hw]
  refine ⟨by rw [hid]; omega, ?_, ?_⟩
  · intro T E i hi
    rw [hid]
    rcases addListener_present d t n l T E i hi with ⟨hi', _⟩ | hold
    · rw [hw] at hi'
      omega
    · have := hb T E i hold
      omega
  · intro T E T' E' i hi hi'
    rcases addListener_present d t n l T E i hi with ⟨h1, h2, h3⟩ | hold
    · rcases addListener_present d t n l T' E' i hi' with ⟨_, h2', h3'⟩ | hold'
      · exact ⟨h2.trans h2'.symm, h3.trans h3'.symm⟩
      · have := hb T' E' i hold'
        rw [hw] at h1
        omega
    · rcases addListener_present d t n l T' E' i hi' with ⟨h1, _, _⟩ | hold'
      · have := hb T E i hold
        rw [hw] at h1
        omega
      · exact hu T E T' E' i hold hold'

theorem idInvariant_del (d : Dispatcher L) (t n : String) (j : Int) (h : IdInvariant d) :
    IdInvariant (delListener d t n j).2 := by
  obtain ⟨h0, hb, hu⟩ := h
  refine ⟨by rw [delListener_id]; exact h0, ?_, ?_⟩
  · intro T E i hi
    rw [delListener_id]
    exact hb T E i (delListener_present d t n j T E i hi)
  · intro T E T' E' i hi hi'
    exact hu T E T' E' i (delListener_present d t n j T E i hi)
      (delListener_present d t n j T' E' i hi')

theorem idInvariant_applyOps (ops : List (Op L)) (d : Dispatcher L) (h : IdInvariant d)
    (hb : d.id + countAdds ops ≤ maxInt) : IdInvariant (applyOps d ops) := by
  induction ops generalizing d with
  | nil => exact h
  | cons op ops ih =>
    cases op with
    | add t n l =>
      simp only [countAdds, Nat.cast_add, Nat.cast_one] at hb
      have hw : wrapInt (d.id + 1) = d.id + 1 :=
        wrapInt_of_range _ (by have := h.1; unfold minInt; omega) (by omega)
      refine ih _ (idInvariant_add d t n l h (by omega)) ?_
      show (addListener d t n l).2.id + _ ≤ _
      rw [addListener_id, hw]
      omega
    | del t n i =>
      simp only [countAdds] at hb
      refine ih _ (idInvariant_del d t n i h) ?_
      show (delListener d t n i).2.id + _ ≤ _
      rw [delListener_id]
      exact hb

theorem deliverLoop_d (call : Callbacks W L) (e : Event) (order : List Int) (w : W)
    (d : Dispatcher L) :
    (deliverLoop call e order w d).d = applyOps d (deliverLoopOps call e order w d) := by
  induction order generalizing w d with
  | nil => rfl
  | cons id rest ih =>
    cases hl : d.atEvent e.TargetID e.Name id with
    | none =>
      rw [deliverLoop_skip call e id rest w d hl]
      rw [← listeners_fst] at hl
      simp only [deliverLoopOps, hl]
      exact ih w d
    | some l =>
      cases hr : (call l e w d).ret with
      | none =>
        rw [deliverLoop_panic call e id rest w d l hl hr]
        rw [← listeners_fst] at hl
        simp only [deliverLoopOps, hl, hr]
      | some b =>
        rw [deliverLoop_ret call e id rest w d l b hl hr]
        rw [← listeners_fst] at hl
        simp only [deliverLoopOps, hl, hr]
        rw [ih, applyOps_append, applyOps_append]
        cases b with
        | false => rfl
        | true => rfl

theorem deliver_d (call : Callbacks W L) (e : Event) (order : List Int) (w : W)
    (d : Dispatcher L) :
    (deliver call e order w d).d = applyOps d (deliverOps call e order w d) := by
  unfold deliver deliverOps
  rw [listeners_snd]
  exact deliverLoop_d call e order w d

theorem close_registry (d d' : Dispatcher L) (h h' : Heap)
    (hc : close (d, h) = .ok (d', h')) : d'.l = d.l ∧ d'.id = d.id := by
  unfold close at hc
  cases hq : d.cq with
  | none =>
    simp only [hq, Except.ok.injEq, Prod.mk.injEq] at hc
    rw [← hc.1]
    exact ⟨rfl, rfl⟩
  | some a =>
    simp only [hq] at hc
    cases hcc : closeChan h (some a) with
    | error p => rw [hcc] at hc; simp at hc
    | ok h2 =>
      rw [hcc] at hc
      simp only [Except.ok.injEq, Prod.mk.injEq] at hc
      rw [← hc.1]
      exact ⟨rfl, rfl⟩

/-- As long as at most `maxInt` calls of `addListener` were made, the counter is
their number and the invariant holds. -/
theorem reachable_invariant (n : Nat) (d : Dispatcher L) (h : Reachable n d)
    (hn : (n : Int) ≤ maxInt) : d.id = n ∧ IdInvariant d := by
  induction h with
  | init h => exact ⟨rfl, idInvariant_new h⟩
  | @add n d T E l _ ih =>
    simp only [Nat.cast_add, Nat.cast_one] at hn
    obtain ⟨hid, hinv⟩ := ih (by omega)
    refine ⟨?_, idInvariant_add d T E l hinv (by omega)⟩
    rw [addListener_id, wrapInt_of_range _ (by unfold minInt; omega) (by omega)]
    simp only [Nat.cast_add, Nat.cast_one]
    omega
  | @del n d T E i _ ih =>
    obtain ⟨hid, hinv⟩ := ih hn
    exact ⟨by rw [delListener_id]; exact hid, idInvariant_del d T E i hinv⟩
  | @deliver n d W call e order w _ ih =>
    simp only [Nat.cast_add] at hn
    obtain ⟨hid, hinv⟩ := ih (by omega)
    rw [deliver_d]
    refine ⟨?_, idInvariant_applyOps _ d hinv (by omega)⟩
    rw [applyOps_id _ d (by unfold minInt; omega) (by omega)]
    simp only [Nat.cast_add]
    omega
  | @close n d d' h h' _ hc ih =>
    obtain ⟨hid, hinv⟩ := ih hn
    obtain ⟨hl, hid'⟩ := close_registry _ _ _ _ hc
    refine ⟨by rw [hid']; exact hid, ?_⟩
    unfold IdInvariant Dispatcher.atEvent Dispatcher.atTarget at hinv ⊢
    rw [hl, hid']
    exact hinv

end Invariant

/-! ## Dispatchers whose counter has wrapped around -/

section Wrapped

variable {L : Type}

theorem countAdds_replicate (n : Nat) (t e : String) (l : L) :
    countAdds (List.replicate n (Op.add t e l)) = n := by
  induction n with
  | zero => rfl
  | succ n ih =>
    rw [List.replicate_succ]
    show countAdds (List.replicate n (Op.add t e l)) + 1 = n + 1
    rw [ih]

theorem reachable_applyOps (ops : List (Op L)) (n : Nat) (d : Dispatcher L)
    (h : Reachable n d) : Reachable (n + countAdds ops) (applyOps d ops) := by
  induction ops generalizing n d with
  | nil => exact h
  | cons op ops ih =>
    cases op with
    | add t e l =>
      have := ih (n + 1) _ (Reachable.add t e l h)
      have heq : n + countAdds (Op.add t e l :: ops) = n + 1 + countAdds ops := by
        show n + (countAdds ops + 1) = n + 1 + countAdds ops
        omega
      rw [heq]
      exact this
    | del t e i => exact ih n _ (Reachable.del t e i h)

theorem applyOps_replicate_id (n : Nat) (d : Dispatcher L) (t e : String) (l : L)
    (hr : wrapInt d.id = d.id) :
    (applyOps d (List.replicate n (Op.add t e l))).id = wrapInt (d.id + n) := by
  induction n generalizing d with
  | zero => simp [applyOps, hr]
  | succ n ih =>
    rw [List.replicate_succ]
    show (applyOps (addListener d t e l).2 (List.replicate n (Op.add t e l))).id = _
    rw [ih _ (by rw [addListener_id]; unfold wrapInt; omega), addListener_id, wrapInt_add]
    congr 1
    push_cast
    omega

theorem applyOps_replicate_frame (n : Nat) (d : Dispatcher L) (t e : String) (l : L)
    (T E : String) (hne : ¬ (T = t ∧ E = e)) :
    (applyOps d (List.replicate n (Op.add t e l))).atEvent T E = d.atEvent T E := by
  induction n generalizing d with
  | zero => rfl
  | succ n ih =>
    rw [List.replicate_succ]
    show (applyOps (addListener d t e l).2 (List.replicate n (Op.add t e l))).atEvent T E = _
    rw [ih, addListener_atEvent, if_neg hne]

theorem fullDispatcher_id : fullDispatcher.id = 9223372036854775807 := by
  unfold fullDispatcher
  rw [applyOps_replicate_id _ _ _ _ _ (by decide)]
  decide

theorem fullDispatcher_reachable : Reachable 9223372036854775807 fullDispatcher := by
  have h := reachable_applyOps (List.replicate 9223372036854775807 (Op.add "t" "e" (0 : Nat)))
    0 _ (Reachable.init [])
  rw [countAdds_replicate, Nat.zero_add] at h
  exact h

theorem wrappedDispatcher_id : wrappedDispatcher.id = 0 := by
  unfold wrappedDispatcher
  rw [applyOps_replicate_id _ _ _ _ _ (by decide)]
  decide

theorem wrappedDispatcher_bucket : wrappedDispatcher.atEvent "t" "e" 1 = some 7 := by
  unfold wrappedDispatcher
  rw [applyOps_replicate_frame _ _ _ _ _ _ _ (by decide)]
  decide

theorem wrappedDispatcher_reachable : Reachable 18446744073709551616 wrappedDispatcher := by
  have h := reachable_applyOps (List.replicate 18446744073709551615 (Op.add "u" "f" (0 : Nat)))
    1 _ (Reachable.add "t" "e" (7 : Nat) (Reachable.init []))
  rw [countAdds_replicate] at h
  exact h

end Wrapped

/-! ## Properties of the ids -/

section IdClaims

variable {L : Type}

/-- C3 does not hold as stated. On a dispatcher whose counter stands at `maxInt`
(a new one after `maxInt` registrations) `addListener` makes the counter `minInt`,
not the old value plus one. On a dispatcher whose counter has gone round to 0
while listener 7 is still stored under id 1, `addListener` on that bucket assigns
id 1 again: the entry of listener 7 is replaced, not kept. -/
theorem addListener_wraps :
    Reachable 9223372036854775807 fullDispatcher ∧
    fullDispatcher.id = 9223372036854775807 ∧
    (addListener fullDispatcher "t" "e" 0).2.id = -9223372036854775808 ∧
    (addListener fullDispatcher "t" "e" 0).2.id ≠ fullDispatcher.id + 1 ∧
    Reachable 18446744073709551616 wrappedDispatcher ∧
    (listeners wrappedDispatcher "t" "e").1 1 = some 7 ∧
    (listeners (addListener wrappedDispatcher "t" "e" 9).2 "t" "e").1 1 = some 9 := by
  have h1 : (addListener fullDispatcher "t" "e" 0).2.id = -9223372036854775808 := by
    rw [addListener_id, fullDispatcher_id]
    decide
  refine ⟨fullDispatcher_reachable, fullDispatcher_id, h1, ?_, wrappedDispatcher_reachable,
    ?_, ?_⟩
  · rw [h1, fullDispatcher_id]
    decide
  · rw [listeners_fst]
    exact wrappedDispatcher_bucket
  · rw [addListener_bucket, wrappedDispatcher_id]
    decide

theorem assignedIds_replicate (n : Nat) (d : Dispatcher L) (t e : String) (l : L) :
    assignedIds d (List.replicate (n + 2) (Op.add t e l)) =
      (addListener d t e l).2.id ::
        (assignedIds (addListener d t e l).2 (List.replicate n (Op.add t e l)) ++
          [(addListener (applyOps (addListener d t e l).2
            (List.replicate n (Op.add t e l))) t e l).2.id]) := by
  rw [List.replicate_succ, List.replicate_succ']
  show (addListener d t e l).2.id ::
    assignedIds (addListener d t e l).2 (List.replicate n (Op.add t e l) ++ [Op.add t e l]) = _
  rw [assignedIds_append]
  rfl

/-- C4 does not hold as stated. Of the ids assigned by 2^63 registrations on a new
dispatcher the first is 1 and the last is `minInt`: they are not strictly
increasing. -/
theorem ids_wrap_around :
    ¬ (assignedIds (newDispatcher Nat []).1
        (List.replicate (9223372036854775806 + 2) (Op.add "t" "e" 0))).Pairwise (· < ·) := by
  intro hp
  rw [assignedIds_replicate] at hp
  have hlt := (List.pairwise_cons.mp hp).1
    (addListener (applyOps (addListener (newDispatcher Nat []).1 "t" "e" 0).2
      (List.replicate 9223372036854775806 (Op.add "t" "e" 0))) "t" "e" 0).2.id
    (List.mem_append_right _ (List.mem_singleton_self _))
  simp only [addListener_id] at hlt
  rw [applyOps_replicate_id _ _ _ _ _ (by decide)] at hlt
  simp only [addListener_id] at hlt
  revert hlt
  decide

/-- Witness of C4: three registrations and one removal on a new dispatcher; the
ids assigned are 1, 2 and 3. -/
theorem ids_fresh_witness :
    ((assignedIds (newDispatcher Nat []).1
        [Op.add "win1" "ready" 10, Op.add "win1" "ready" 20, Op.del "win1" "ready" 1,
         Op.add "win2" "close" 30]).Pairwise (· < ·) ∧
    (assignedIds (newDispatcher Nat []).1
        [Op.add "win1" "ready" 10, Op.add "win1" "ready" 20, Op.del "win1" "ready" 1,
         Op.add "win2" "close" 30]).Nodup ∧
    (∀ later : List (Op Nat),
      (countAdds ([Op.add "win1" "ready" 10, Op.add "win1" "ready" 20,
        Op.del "win1" "ready" 1, Op.add "win2" "close" 30] ++ later) : Int) ≤ maxInt →
      ∀ i ∈ assignedIds (newDispatcher Nat []).1
          [Op.add "win1" "ready" 10, Op.add "win1" "ready" 20, Op.del "win1" "ready" 1,
           Op.add "win2" "close" 30],
        i ∉ assignedIds (applyOps (newDispatcher Nat []).1
          [Op.add "win1" "ready" 10, Op.add "win1" "ready" 20, Op.del "win1" "ready" 1,
           Op.add "win2" "close" 30]) later) ∧
    (∀ (d : Dispatcher Nat) (T E : String) (i : Int), (delListener d T E i).2.id = d.id) ∧
    (∀ (d : Dispatcher Nat) (T E : String) (l : Nat),
      (listeners (addListener d T E l).2 T E).1 (addListener d T E l).2.id = some l)) ∧
    assignedIds (newDispatcher Nat []).1
        [Op.add "win1" "ready" 10, Op.add "win1" "ready" 20, Op.del "win1" "ready" 1,
         Op.add "win2" "close" 30] = [1, 2, 3] :=
  ⟨ids_fresh [] _ (by decide), by decide⟩

/-- C13, as the code has it. Unique-id invariant of the registry as long as the
counter has not wrapped around: in every dispatcher reachable from `newDispatcher`
by `addListener`, `delListener`, the delivery of events (with any callbacks) and
`close`, with at most `maxInt` calls of `addListener` made on the way, an id is a
key of at most one bucket of the registry, and every id stored lies between 1 and
the counter `d.id`. -/
theorem unique_ids (n : Nat) (d : Dispatcher L) (h : Reachable n d)
    (hn : (n : Int) ≤ maxInt) :
    (∀ T E T' E' i, ((listeners d T E).1 i).isSome → ((listeners d T' E').1 i).isSome →
      T = T' ∧ E = E') ∧
    (∀ T E i, ((listeners d T E).1 i).isSome → 1 ≤ i ∧ i ≤ d.id) := by
  obtain ⟨_, _, hb, hu⟩ := reachable_invariant n d h hn
  simp only [listeners_fst]
  exact ⟨hu, hb⟩

/-- C13 does not hold as stated. A new dispatcher after 2^63 registrations stores
a listener under the id `minInt`, which is below 1. A dispatcher whose counter has
gone round to 0 while listener 7 is stored under id 1 of ("t", "e") assigns id 1
again, and a registration under ("u", "f") makes id 1 a key of two buckets. -/
theorem ids_not_unique_after_wrap :
    Reachable (9223372036854775807 + 1) (addListener fullDispatcher "t" "e" 0).2 ∧
    (listeners (addListener fullDispatcher "t" "e" 0).2 "t" "e").1 (-9223372036854775808)
      = some 0 ∧
    ¬ (1 ≤ (-9223372036854775808 : Int)) ∧
    Reachable (18446744073709551616 + 1) (addListener wrappedDispatcher "u" "f" 0).2 ∧
    (listeners (addListener wrappedDispatcher "u" "f" 0).2 "t" "e").1 1 = some 7 ∧
    (listeners (addListener wrappedDispatcher "u" "f" 0).2 "u" "f").1 1 = some 0 := by
  refine ⟨Reachable.add _ _ _ fullDispatcher_reachable, ?_, by decide,
    Reachable.add _ _ _ wrappedDispatcher_reachable, ?_, ?_⟩
  · rw [addListener_bucket, fullDispatcher_id]
    decide
  · rw [listeners_fst, addListener_atEvent, if_neg (by decide)]
    exact wrappedDispatcher_bucket
  · rw [addListener_bucket, wrappedDispatcher_id]
    decide

theorem scenario_delivered_reachable :
    Reachable (0 + 1 + 1 +
        countAdds (deliverOps scenarioCall scenarioEvent [2, 1] () scenarioDispatcher))
      (deliver scenarioCall scenarioEvent [2, 1] () scenarioDispatcher).d :=
  Reachable.deliver scenarioCall scenarioEvent [2, 1] ()
    (Reachable.add "win1" "ready" 20 (Reachable.add "win1" "ready" 10 (Reachable.init [])))

/-- Witness of C13: the dispatcher of the scenario after the delivery of its
event; it holds listener 10 under id 1 and its counter is 2. -/
theorem unique_ids_witness :
    ((∀ T E T' E' i,
      ((listeners (deliver scenarioCall scenarioEvent [2, 1] () scenarioDispatcher).d
        T E).1 i).isSome →
      ((listeners (deliver scenarioCall scenarioEvent [2, 1] () scenarioDispatcher).d
        T' E').1 i).isSome → T = T' ∧ E = E') ∧
    (∀ T E i,
      ((listeners (deliver scenarioCall scenarioEvent [2, 1] () scenarioDispatcher).d
        T E).1 i).isSome →
      1 ≤ i ∧ i ≤ (deliver scenarioCall scenarioEvent [2, 1] () scenarioDispatcher).d.id)) ∧
    (deliver scenarioCall scenarioEvent [2, 1] () scenarioDispatcher).d.id = 2 ∧
    (listeners (deliver scenarioCall scenarioEvent [2, 1] () scenarioDispatcher).d
      "win1" "ready").1 1 = some 10 :=
  ⟨unique_ids _ _ scenario_delivered_reachable (by decide), by decide, by decide⟩

theorem add_del_atEvent (d : Dispatcher L) (T E : String) (l : L)
    (hfree : d.atEvent T E (wrapInt (d.id + 1)) = none) (T' E' : String) :
    (delListener (addListener d T E l).2 T E (addListener d T E l).2.id).2.atEvent T' E'
      = d.atEvent T' E' := by
  rw [delListener_atEvent, addListener_id, addListener_atEvent, addListener_atEvent]
  by_cases hc : T' = T ∧ E' = E
  · rw [if_pos hc, hc.1, hc.2]
    simp only [true_and, if_true]
    funext j
    by_cases hj : j = wrapInt (d.id + 1)
    · simp [hj, hfree]
    · simp [hj]
  · rw [if_neg hc, if_neg hc]

theorem reachable_next_id_free (n : Nat) (d : Dispatcher L) (h : Reachable n d)
    (hn : (n : Int) < maxInt) (T E : String) :
    d.atEvent T E (wrapInt (d.id + 1)) = none := by
  obtain ⟨hid, _, hb, _⟩ := reachable_invariant n d h (by omega)
  have hw : wrapInt (d.id + 1) = d.id + 1 :=
    wrapInt_of_range _ (by unfold minInt; omega) (by omega)
  rw [hw]
  cases hx : d.atEvent T E (d.id + 1) with
  | none => rfl
  | some x =>
    have := hb T E (d.id + 1) (by simp [hx])
    omega

/-- C16, as the code has it. Add followed by remove is a round trip for lookups
when the id about to be assigned is not already a key of the bucket of `(T, E)`,
as it is in every dispatcher reachable with fewer than `maxInt` calls of
`addListener`: then `addListener(T, E, L)` followed by `delListener(T, E, i)`, `i`
the id just assigned, leaves `listeners(T', E')` as it was for every pair,
`(T, E)` included, whether or not its buckets existed; the counter is the old
value plus one as an `int`, and the channels are the same. -/
theorem add_del_round_trip (d : Dispatcher L) (T E : String) (l : L)
    (h : (listeners d T E).1 (wrapInt (d.id + 1)) = none ∨
      ∃ n, Reachable n d ∧ (n : Int) < maxInt) :
    (∀ T' E',
      (listeners (delListener (addListener d T E l).2 T E
        (addListener d T E l).2.id).2 T' E').1 = (listeners d T' E').1) ∧
    (delListener (addListener d T E l).2 T E (addListener d T E l).2.id).2.id
      = wrapInt (d.id + 1) ∧
    (delListener (addListener d T E l).2 T E (addListener d T E l).2.id).2.c = d.c ∧
    (delListener (addListener d T E l).2 T E (addListener d T E l).2.id).2.cq = d.cq := by
  have hfree : d.atEvent T E (wrapInt (d.id + 1)) = none := by
    rcases h with h | ⟨n, hr, hn⟩
    · rw [← listeners_fst]
      exact h
    · exact reachable_next_id_free n d hr hn T E
  refine ⟨?_, ?_, ?_, ?_⟩
  · intro T' E'
    rw [listeners_fst, listeners_fst]
    exact add_del_atEvent d T E l hfree T' E'
  · rw [delListener_id, addListener_id]
  · rw [delListener_snd, addListener_snd]
    simp only
    split
    · rfl
    · split <;> rfl
  · rw [delListener_snd, addListener_snd]
    simp only
    split
    · rfl
    · split <;> rfl

/-- C16 does not hold as stated. On a dispatcher whose counter has gone round to 0
while listener 7 is stored under id 1 of ("t", "e"), `addListener("t", "e", 9)`
assigns id 1 again and `delListener("t", "e", 1)` then removes the entry: the
lookup of ("t", "e") has lost listener 7. -/
theorem round_trip_loses_listener :
    Reachable 18446744073709551616 wrappedDispatcher ∧
    (listeners wrappedDispatcher "t" "e").1 1 = some 7 ∧
    (addListener wrappedDispatcher "t" "e" 9).2.id = 1 ∧
    (listeners (delListener (addListener wrappedDispatcher "t" "e" 9).2 "t" "e"
      (addListener wrappedDispatcher "t" "e" 9).2.id).2 "t" "e").1 1 = none := by
  have hid : (addListener wrappedDispatcher "t" "e" 9).2.id = 1 := by
    rw [addListener_id, wrappedDispatcher_id]
    decide
  refine ⟨wrappedDispatcher_reachable, ?_, hid, ?_⟩
  · rw [listeners_fst]
    exact wrappedDispatcher_bucket
  · rw [delListener_bucket, hid]
    simp

/-- Witness of C16: on the dispatcher of the scenario, for a pair whose bucket
exists and for a pair without target bucket. -/
theorem add_del_round_trip_witness :
    ((∀ T' E',
      (listeners (delListener (addListener scenarioDispatcher "win1" "ready" 30).2
        "win1" "ready" (addListener scenarioDispatcher "win1" "ready" 30).2.id).2 T' E').1
        = (listeners scenarioDispatcher T' E').1) ∧
    (delListener (addListener scenarioDispatcher "win1" "ready" 30).2 "win1" "ready"
      (addListener scenarioDispatcher "win1" "ready" 30).2.id).2.id
        = wrapInt (scenarioDispatcher.id + 1) ∧
    (delListener (addListener scenarioDispatcher "win1" "ready" 30).2 "win1" "ready"
      (addListener scenarioDispatcher "win1" "ready" 30).2.id).2.c = scenarioDispatcher.c ∧
    (delListener (addListener scenarioDispatcher "win1" "ready" 30).2 "win1" "ready"
      (addListener scenarioDispatcher "win1" "ready" 30).2.id).2.cq
        = scenarioDispatcher.cq) ∧
    ((∀ T' E',
      (listeners (delListener (addListener scenarioDispatcher "win2" "close" 30).2
        "win2" "close" (addListener scenarioDispatcher "win2" "close" 30).2.id).2 T' E').1
        = (listeners scenarioDispatcher T' E').1) ∧
    (delListener (addListener scenarioDispatcher "win2" "close" 30).2 "win2" "close"
      (addListener scenarioDispatcher "win2" "close" 30).2.id).2.id
        = wrapInt (scenarioDispatcher.id + 1) ∧
    (delListener (addListener scenarioDispatcher "win2" "close" 30).2 "win2" "close"
      (addListener scenarioDispatcher "win2" "close" 30).2.id).2.c = scenarioDispatcher.c ∧
    (delListener (addListener scenarioDispatcher "win2" "close" 30).2 "win2" "close"
      (addListener scenarioDispatcher "win2" "close" 30).2.id).2.cq
        = scenarioDispatcher.cq) ∧
    (delListener (addListener scenarioDispatcher "win1" "ready" 30).2 "win1" "ready"
      (addListener scenarioDispatcher "win1" "ready" 30).2.id).2.id = 3 :=
  ⟨add_del_round_trip scenarioDispatcher "win1" "ready" 30 (Or.inl (by decide)),
    add_del_round_trip scenarioDispatcher "win2" "close" 30
      (Or.inr ⟨2, Reachable.add "win1" "ready" 20
        (Reachable.add "win1" "ready" 10 (Reachable.init [])), by decide⟩),
    by decide⟩

/-- C17. Frame of `addListener`: `addListener(T, E, L)` leaves `listeners(T', E')`
as it was for every pair other than `(T, E)`, among them the pairs of the same
target with another event name and the pairs of the same event name with another
target. -/
theorem addListener_frame (d : Dispatcher L) (T E : String) (l : L) :
    (∀ T' E', (T', E') ≠ (T, E) →
      (listeners (addListener d T E l).2 T' E').1 = (listeners d T' E').1) ∧
    (∀ E', E' ≠ E →
      (listeners (addListener d T E l).2 T E').1 = (listeners d T E').1) ∧
    (∀ T', T' ≠ T →
      (listeners (addListener d T E l).2 T' E).1 = (listeners d T' E).1) := by
  have hframe : ∀ T' E', ¬ (T' = T ∧ E' = E) →
      (listeners (addListener d T E l).2 T' E').1 = (listeners d T' E').1 := by
    intro T' E' hne
    rw [listeners_fst, listeners_fst, addListener_atEvent, if_neg hne]
  refine ⟨?_, ?_, ?_⟩
  · intro T' E' hne
    exact hframe T' E' (fun hc => hne (by rw [hc.1, hc.2]))
  · intro E' hne
    exact hframe T E' (fun hc => hne hc.2)
  · intro T' hne
    exact hframe T' E (fun hc => hne hc.1)

end IdClaims

/-! ## The loop: panics and shutdown -/

section LoopClaims

variable {W L : Type}

theorem step_crashed (call : Callbacks W L) (s : Loop W L) (h : s.phase = .crashed)
    (a : Action) : step call s a = none := by
  cases a <;> simp [step, h]

/-- C12, as the code has it. The loop does not isolate a failing callback: `start`
has no `recover`. When a callback panics during the delivery of an event, the
delivery ends there: the invocations made are those made before it and the one
that panicked, so the listeners not yet reached are not invoked for the event;
the panic unwinds `start`, and the loop takes no further step, so no later event
is processed. -/
theorem panic_ends_delivery (call : Callbacks W L) (e : Event)
    (pre : List Int) (id : Int) (post : List Int) (w : W) (d : Dispatcher L) (l : L)
    (hpre : (deliver call e pre w d).panicked = false)
    (hl : (listeners (deliver call e pre w d).d e.TargetID e.Name).1 id = some l)
    (hp : (call l e (deliver call e pre w d).w (deliver call e pre w d).d).ret = none) :
    (deliver call e (pre ++ id :: post) w d).panicked = true ∧
    (deliver call e (pre ++ id :: post) w d).trace =
      (deliver call e pre w d).trace ++ [{ id := id, l := l, e := e, ret := none }] ∧
    (∀ heap : Heap, ∃ s',
      step call { d := d, heap := heap, w := w, phase := .delivering e }
        (.finish (pre ++ id :: post)) = some s' ∧
      s'.phase = .crashed ∧ ∀ a, step call s' a = none) := by
  have hk : (deliver call e (pre ++ id :: post) w d).panicked = true ∧
      (deliver call e (pre ++ id :: post) w d).trace =
        (deliver call e pre w d).trace ++ [{ id := id, l := l, e := e, ret := none }] := by
    unfold deliver at hpre hl hp ⊢
    simp only [listeners_snd, listeners_fst] at hpre hl hp ⊢
    rw [deliverLoop_append call e pre (id :: post)]
    simp only [hpre, Bool.false_eq_true, if_false]
    rw [deliverLoop_panic call e id post _ _ l hl hp]
    exact ⟨rfl, rfl⟩
  refine ⟨hk.1, hk.2, ?_⟩
  intro heap
  refine ⟨_, rfl, ?_, ?_⟩
  · simp [hk.1]
  · intro a
    exact step_crashed call _ (by simp [hk.1]) a

/-- C12 does not hold as stated. Listeners 10 and 20 are stored under ids 1 and 2;
the callback of 10 panics; 20 is not invoked for the event, the loop is unwound,
and an event sent afterwards is not received. -/
theorem panic_is_not_isolated :
    (listeners scenarioDispatcher scenarioEvent.TargetID scenarioEvent.Name).1 2 = some 20 ∧
    (deliver panickingCall scenarioEvent [1, 2] () scenarioDispatcher).trace.map
      (fun c => (c.id, c.l, c.ret)) = [(1, 10, none)] ∧
    (deliver panickingCall scenarioEvent [1, 2] () scenarioDispatcher).panicked = true ∧
    (run panickingCall scenarioLoop
      [.enter, .receive scenarioEvent, .finish [1, 2]]).map (fun s => s.phase)
        = some Phase.crashed ∧
    (run panickingCall scenarioLoop
      [.enter, .receive scenarioEvent, .finish [1, 2], .enter]).isNone = true ∧
    (run panickingCall scenarioLoop
      [.enter, .receive scenarioEvent, .finish [1, 2], .receive scenarioEvent]).isNone
        = true := by
  decide

/-- Witness of C12 on the scenario: the callback of listener 10, reached first,
panics. -/
theorem panic_ends_delivery_witness :
    (deliver panickingCall scenarioEvent ([] ++ 1 :: [2]) () scenarioDispatcher).panicked
      = true ∧
    (deliver panickingCall scenarioEvent ([] ++ 1 :: [2]) () scenarioDispatcher).trace =
      (deliver panickingCall scenarioEvent [] () scenarioDispatcher).trace ++
        [{ id := 1, l := 10, e := scenarioEvent, ret := none }] ∧
    (∀ heap : Heap, ∃ s',
      step panickingCall
        { d := scenarioDispatcher, heap := heap, w := (), phase := .delivering scenarioEvent }
        (.finish ([] ++ 1 :: [2])) = some s' ∧
      s'.phase = .crashed ∧ ∀ a, step panickingCall s' a = none) :=
  panic_ends_delivery panickingCall scenarioEvent [] 1 [2] () scenarioDispatcher 10
    rfl rfl rfl

theorem addListener_cq (d : Dispatcher L) (t n : String) (l : L) :
    (addListener d t n l).2.cq = d.cq := by
  rw [addListener_snd]

theorem delListener_cq (d : Dispatcher L) (t n : String) (i : Int) :
    (delListener d t n i).2.cq = d.cq := by
  rw [delListener_snd]
  cases h1 : d.l t with
  | none => rfl
  | some evs => cases h2 : evs n <;> simp [h2]

theorem applyOps_cq (ops : List (Op L)) (d : Dispatcher L) : (applyOps d ops).cq = d.cq := by
  induction ops generalizing d with
  | nil => rfl
  | cons op ops ih =>
    cases op with
    | add t n l => exact (ih _).trans (addListener_cq d t n l)
    | del t n i => exact (ih _).trans (delListener_cq d t n i)

theorem deliverLoop_cq (call : Callbacks W L) (e : Event) (order : List Int) (w : W)
    (d : Dispatcher L) : (deliverLoop call e order w d).d.cq = d.cq := by
  induction order generalizing w d with
  | nil => rfl
  | cons id rest ih =>
    cases hl : d.atEvent e.TargetID e.Name id with
    | none =>
      rw [deliverLoop_skip call e id rest w d hl]
      exact ih w d
    | some l =>
      cases hr : (call l e w d).ret with
      | none =>
        rw [deliverLoop_panic call e id rest w d l hl hr]
        exact applyOps_cq _ d
      | some b =>
        rw [deliverLoop_ret call e id rest w d l b hl hr]
        simp only
        rw [ih]
        cases b with
        | false => exact applyOps_cq _ d
        | true => exact (delListener_cq _ _ _ _).trans (applyOps_cq _ d)

theorem deliver_cq (call : Callbacks W L) (e : Event) (order : List Int) (w : W)
    (d : Dispatcher L) : (deliver call e order w d).d.cq = d.cq := by
  unfold deliver
  rw [listeners_snd]
  exact deliverLoop_cq call e order w d

theorem deaf_step (call : Callbacks W L) (s s' : Loop W L) (a : Action) (h : Deaf s)
    (hs : step call s a = some s') : Deaf s' := by
  obtain ⟨h1, h2, h3⟩ := h
  cases a with
  | enter =>
    cases hph : s.phase <;> simp [step, hph] at hs
    subst hs
    exact ⟨h1, fun c cq hw => by simp at hw; rw [← hw.2, h1], by simp⟩
  | receive e =>
    cases hph : s.phase with
    | waiting c cq =>
      cases c with
      | none => simp [step, hph] at hs
      | some a =>
        simp [step, hph] at hs
        subst hs
        exact ⟨h1, fun c cq hw => by simp at hw, by simp⟩
    | _ => simp [step, hph] at hs
  | finish order =>
    cases hph : s.phase with
    | delivering e =>
      simp [step, hph] at hs
      subst hs
      refine ⟨by simp [deliver_cq, h1], ?_, ?_⟩
      · intro c cq hw
        simp only at hw
        split at hw <;> simp at hw
      · simp only
        split <;> simp
    | _ => simp [step, hph] at hs
  | quit =>
    cases hph : s.phase with
    | waiting c cq =>
      have := h2 c cq hph
      subst this
      simp [step, hph, recvReady] at hs
    | _ => simp [step, hph] at hs
  | close =>
    have hclose : close (s.d, s.heap) = .ok (s.d, s.heap) := by simp [close, h1]
    cases hph : s.phase <;> simp [step, hph, hclose] at hs
    all_goals
      first
      | exact absurd hph h3
      | (subst hs
         exact ⟨h1, fun c cq hw => h2 c cq (hph.trans hw), fun hr => h3 (hph.trans hr)⟩)

theorem deaf_run (call : Callbacks W L) (acts : List Action) (s s' : Loop W L) (h : Deaf s)
    (hs : run call s acts = some s') : Deaf s' := by
  induction acts generalizing s with
  | nil =>
    simp [run] at hs
    subst hs
    exact h
  | cons a acts ih =>
    unfold run at hs
    cases hst : step call s a with
    | none => simp [hst] at hs
    | some s1 =>
      simp only [hst] at hs
      exact ih s1 (deaf_step call s s1 a h hst) hs

theorem close_ok_dispatcher (d d' : Dispatcher L) (h h' : Heap)
    (hc : close (d, h) = .ok (d', h')) : d' = { d with cq := none } := by
  unfold close at hc
  cases hq : d.cq with
  | none =>
    simp only [hq, Except.ok.injEq, Prod.mk.injEq] at hc
    rw [← hc.1, ← hq]
  | some a =>
    simp only [hq] at hc
    cases hcc : closeChan h (some a) with
    | error p => rw [hcc] at hc; simp at hc
    | ok h2 =>
      rw [hcc] at hc
      simp only [Except.ok.injEq, Prod.mk.injEq] at hc
      exact hc.1.symm

/-- When `close` is called while the loop is blocked in its `select` on the open
channel of `cq`, the shutdown branch can be taken and `start` returns. -/
theorem close_while_waiting_returns (call : Callbacks W L) (s : Loop W L)
    (c : Option Nat) (a : Nat) (hph : s.phase = .waiting c (some a))
    (hcq : s.d.cq = some a) (hopen : s.heap.get? a = some false) :
    ∃ s1 s2, step call s .close = some s1 ∧ step call s1 .quit = some s2 ∧
      s2.phase = .returned := by
  rw [List.get?_eq_getElem?] at hopen
  have hlt : a < s.heap.length := by
    by_contra hge
    rw [List.getElem?_eq_none (by omega)] at hopen
    simp at hopen
  have hclose : close (s.d, s.heap) = .ok ({ s.d with cq := none }, s.heap.set a true) := by
    simp [close, hcq, closeChan, hopen]
  refine ⟨{ s with d := { s.d with cq := none }, heap := s.heap.set a true },
    { s with d := { s.d with cq := none }, heap := s.heap.set a true, phase := .returned },
    ?_, ?_, rfl⟩
  · simp [step, hph, hclose]
  · simp [step, hph, recvReady, hlt]

/-- C11, what the code does when `close` is called in the middle of a delivery.
The delivery of the accepted event runs to its end, but `close` has set `d.cq` to
nil, and the next `select` reads `d.cq` anew: whatever happens afterwards (more
events, more calls of `close`), the shutdown branch is never taken and `start`
does not return. -/
theorem close_while_delivering_never_returns (call : Callbacks W L) (s s1 : Loop W L)
    (e : Event) (hph : s.phase = .delivering e) (hclose : step call s .close = some s1) :
    (∀ order, step call s1 (.finish order) =
      some { d := (deliver call e order s1.w s1.d).d, heap := s1.heap,
             w := (deliver call e order s1.w s1.d).w,
             phase := if (deliver call e order s1.w s1.d).panicked then .crashed else .top }) ∧
    (∀ acts s', run call s1 acts = some s' →
      s'.phase ≠ .returned ∧ ∀ c cq, s'.phase = .waiting c cq → cq = none) := by
  have hs1 : s1.phase = .delivering e ∧ s1.d.cq = none := by
    simp only [step, hph] at hclose
    cases hc : close (s.d, s.heap) with
    | error p => simp [hc] at hclose
    | ok r =>
      simp only [hc, Option.some.injEq] at hclose
      subst hclose
      have := close_ok_dispatcher s.d r.1 s.heap r.2 hc
      exact ⟨rfl, by rw [this]⟩
  have hdeaf : Deaf s1 :=
    ⟨hs1.2, fun c cq hw => by rw [hs1.1] at hw; simp at hw, by rw [hs1.1]; simp⟩
  refine ⟨?_, ?_⟩
  · intro order
    simp [step, hs1.1]
  · intro acts s' hrun
    have := deaf_run call acts s1 s' hdeaf hrun
    exact ⟨this.not_returned, this.operand_nil⟩

/-- Witness of C11 on the scenario. `close` is called while the event is being
delivered: the delivery ends, the loop enters its `select` with a nil `cq` and
cannot take the shutdown branch. Called while the loop is blocked in its
`select`, `close` makes `start` return. -/
theorem close_while_delivering_never_returns_witness :
    ((∀ order, step scenarioCall closedLoop (.finish order) =
      some { d := (deliver scenarioCall scenarioEvent order closedLoop.w closedLoop.d).d,
             heap := closedLoop.heap,
             w := (deliver scenarioCall scenarioEvent order closedLoop.w closedLoop.d).w,
             phase := if (deliver scenarioCall scenarioEvent order closedLoop.w
               closedLoop.d).panicked then .crashed else .top }) ∧
    (∀ acts s', run scenarioCall closedLoop acts = some s' →
      s'.phase ≠ .returned ∧ ∀ c cq, s'.phase = .waiting c cq → cq = none)) ∧
    (run scenarioCall scenarioLoop [.enter, .receive scenarioEvent]).map
      (fun s => (s.phase, s.heap, s.d.cq))
        = some (Phase.delivering scenarioEvent, [false, false], some 1) ∧
    (run scenarioCall scenarioLoop
      [.enter, .receive scenarioEvent, .close, .finish [2, 1], .enter]).map
      (fun s => (s.phase, s.heap, s.d.cq))
        = some (Phase.waiting (some 0) none, [false, true], none) ∧
    (run scenarioCall scenarioLoop
      [.enter, .receive scenarioEvent, .close, .finish [2, 1], .enter, .quit]).isNone
        = true ∧
    (run scenarioCall scenarioLoop [.enter, .close, .quit]).map (fun s => s.phase)
      = some Phase.returned :=
  ⟨close_while_delivering_never_returns scenarioCall deliveringLoop closedLoop scenarioEvent
    rfl rfl, by decide, by decide, by decide, by decide⟩

end LoopClaims

/-! ## The mutex during a delivery -/

section MutexClaims

variable {W L : Type}

theorem withLock_free {α : Type} (r : α) : withLock false r = some (false, r) := rfl

theorem withLock_held {α : Type} (r : α) : withLock true r = none := rfl

theorem applyOpsM_free (ops : List (Op L)) (d : Dispatcher L) :
    applyOpsM false d ops = some (false, applyOps d ops) := by
  induction ops generalizing d with
  | nil => rfl
  | cons op ops ih =>
    simp only [applyOpsM, applyOpM, withLock_free, applyOps]
    exact ih _

theorem deliverLoopM_free (call : Callbacks W L) (e : Event) (order : List Int) (w : W)
    (d : Dispatcher L) :
    deliverLoopM call e order false w d =
      some (false, deliverLoop call e order w d,
        List.replicate (deliverLoop call e order w d).trace.length false) := by
  induction order generalizing w d with
  | nil => rfl
  | cons id rest ih =>
    cases hl : d.atEvent e.TargetID e.Name id with
    | none =>
      rw [deliverLoop_skip call e id rest w d hl]
      rw [← listeners_fst] at hl
      simp only [deliverLoopM, hl]
      exact ih w d
    | some l =>
      cases hr : (call l e w d).ret with
      | none =>
        rw [deliverLoop_panic call e id rest w d l hl hr]
        rw [← listeners_fst] at hl
        simp [deliverLoopM, hl, hr, applyOpsM_free]
      | some b =>
        rw [deliverLoop_ret call e id rest w d l b hl hr]
        rw [← listeners_fst] at hl
        cases b with
        | false =>
          simp [deliverLoopM, hl, hr, applyOpsM_free, ih, List.replicate_succ]
        | true =>
          simp [deliverLoopM, hl, hr, applyOpsM_free, withLock_free, ih, List.replicate_succ]

/-- C15. Callbacks run outside the registry lock. Followed along the goroutine of
the loop, starting with the mutex free: the delivery of an event never waits for
a mutex it holds itself, whatever registry methods the callbacks call; the mutex
is free at each invocation of a listener and free again at the end; and the
delivery is the one described without the mutex. Were the mutex held at an
invocation, the first registry call of the callback would never return. -/
theorem callbacks_run_unlocked (call : Callbacks W L) (e : Event) (order : List Int)
    (w : W) (d : Dispatcher L) :
    (∃ held : List Bool,
      deliverM call e order false w d = some (false, deliver call e order w d, held) ∧
      held.length = (deliver call e order w d).trace.length ∧
      ∀ h ∈ held, h = false) ∧
    (∀ (d' : Dispatcher L) (op : Op L) (ops : List (Op L)),
      applyOpsM true d' (op :: ops) = none) := by
  refine ⟨⟨List.replicate (deliver call e order w d).trace.length false, ?_, ?_, ?_⟩, ?_⟩
  · unfold deliverM deliver
    simp only [withLock_free, listeners_snd]
    exact deliverLoopM_free call e order w d
  · simp
  · intro h hh
    exact (List.mem_replicate.mp hh).2
  · intro d' op ops
    simp [applyOpsM, applyOpM, withLock_held]

end MutexClaims

end Astilectron
